import Mathlib

/-!
Verification of the stabilization core of the srs-preprocessing repository.

The two source files embedded here are
`src/stabilize/stabilizer_optical_flow.py` (class `ImageStabilizer`) and
`src/stabilize/stabilizer_ransac_offset.py` (class `RANSACStabilizer`).

Modelling conventions:
* Native pixel data are integers (`ℤ`); IEEE floating-point intermediates are
  modelled by exact rationals (`ℚ`).  The single place where a float NaN can
  arise in the sources (the `0/0` of the intensity normalisation when the
  volume's global min equals its global max, line 43 of the optical-flow file
  and line 36 of the RANSAC file) is modelled explicitly: the result of the
  subsequent undefined NaN→uint8 cast is an abstract parameter `nanCast`.
* Volumes are rank-3, time-first (`axes = "TYX"` or `axes = None`), the shape
  exercised by the claims.  A frame is then exactly the 2-D slice at a time
  index, so the `while frame.ndim > 2` collapse loop of `_get_frame` has zero
  iterations and `_convert_to_grayscale` takes its `ndim == 2` identity branch.
* OpenCV calls (`goodFeaturesToTrack`, `calcOpticalFlowPyrLK`,
  `ORB.detectAndCompute`, `BFMatcher.match`, `estimateAffinePartial2D`) are
  external library functions; they are modelled as oracle parameters.  Every
  line of Python in the two source files themselves is embedded directly,
  including `np.median`, `np.clip`, `cv2.warpAffine`'s documented sampling
  formula, and the exact (broken) indentation structure of the RANSAC file.
-/

/-- A 2-D frame: a list of rows of integer pixels. -/
abbrev Frame := List (List ℤ)

/-- A rank-3, time-first volume: a list of frames. -/
abbrev Vol := List Frame

/-- All elements of a frame, in row-major order. -/
def frameElems : Frame → List ℤ
  | [] => []
  | r :: f => r ++ frameElems f

/-- All elements of a volume, in order (used for `data.min()` / `data.max()`). -/
def volElems : Vol → List ℤ
  | [] => []
  | f :: v => frameElems f ++ volElems v

/-- `data.min()`: global minimum of the volume (numpy raises on an empty
volume; callers guard that case, the default 0 is never observed there). -/
def volMin (v : Vol) : ℤ :=
  match volElems v with
  | [] => 0
  | x :: xs => xs.foldl min x

/-- `data.max()`: global maximum of the volume. -/
def volMax (v : Vol) : ℤ :=
  match volElems v with
  | [] => 0
  | x :: xs => xs.foldl max x

/-- Truncation toward zero: the C/numpy `astype` cast from a float to an
integer type (for in-range values). -/
def truncQ (q : ℚ) : ℤ :=
  if q < 0 then -(⌊-q⌋) else ⌊q⌋

/-- `np.clip(x, lo, hi)`. -/
def npClip (x lo hi : ℚ) : ℚ :=
  max lo (min x hi)

/-- One element of `((data - data_min) / (data_max - data_min) * 255)
.astype(np.uint8)` (optical-flow file lines 40-44, RANSAC file lines 33-37).
When `mx = mn` the float quotient is IEEE `0/0 = NaN` and the uint8 cast of a
NaN is platform-undefined; that cast result is the abstract `nanCast`. -/
def toU8 (nanCast mn mx x : ℤ) : ℤ :=
  if mx = mn then nanCast
  else truncQ (((x : ℚ) - (mn : ℚ)) / ((mx : ℚ) - (mn : ℚ)) * 255)

/-- The float value `stabilized_frame.astype(np.float32) / 255.0 *
(data_max - data_min) + data_min` (lines 128-130 / 129-131). -/
def fromU8Q (mn mx u : ℤ) : ℚ :=
  (u : ℚ) / 255 * ((mx : ℚ) - (mn : ℚ)) + (mn : ℚ)

/-- The same value after `.astype(data.dtype)` (lines 131-132 / 132-133). -/
def fromU8 (mn mx u : ℤ) : ℤ :=
  truncQ (fromU8Q mn mx u)

/-- Normalise one frame into the uint8 tracking domain. -/
def normFrame (nanCast mn mx : ℤ) (f : Frame) : Frame :=
  f.map (fun row => row.map (toU8 nanCast mn mx))

/-- Normalise a whole volume (line 43-44 / 36-37). -/
def normVol (nanCast mn mx : ℤ) (v : Vol) : Vol :=
  v.map (normFrame nanCast mn mx)

/-- Convert a uint8 frame back to the native range and dtype (lines 128-132 /
129-133). -/
def backFrame (mn mx : ℤ) (f : Frame) : Frame :=
  f.map (fun row => row.map (fromU8 mn mx))

/-- The composite uint8 round trip applied to one native frame: normalisation
followed by the inverse map and dtype cast. -/
def roundTripFrame (nanCast mn mx : ℤ) (f : Frame) : Frame :=
  f.map (fun row => row.map (fun x => fromU8 mn mx (toU8 nanCast mn mx x)))

/-- Pixel lookup with the constant-zero border used by `cv2.warpAffine`'s
default `BORDER_CONSTANT` fill (and 0 beyond the lists). -/
def pxAt (f : Frame) (yy xx : ℤ) : ℚ :=
  if 0 ≤ yy ∧ 0 ≤ xx then (((f.getD yy.toNat []).getD xx.toNat 0 : ℤ) : ℚ) else 0

/-- Bilinear (`INTER_LINEAR`) sample of `f` at the real coordinate
`(xs, ys)` (x = column, y = row), zero outside the frame. -/
def bilinearSample (f : Frame) (xs ys : ℚ) : ℚ :=
  let x0 : ℤ := ⌊xs⌋
  let y0 : ℤ := ⌊ys⌋
  let ax : ℚ := xs - (x0 : ℚ)
  let ay : ℚ := ys - (y0 : ℚ)
  (1 - ay) * ((1 - ax) * pxAt f y0 x0 + ax * pxAt f y0 (x0 + 1)) +
    ay * ((1 - ax) * pxAt f (y0 + 1) x0 + ax * pxAt f (y0 + 1) (x0 + 1))

/-- Round to nearest (uint8 result of the interpolation). -/
def roundHalfUp (q : ℚ) : ℤ :=
  ⌊q + 1 / 2⌋

/-- `cv2.warpAffine(frame, [[1,0,tx],[0,1,ty]], (W,H), flags=INTER_LINEAR)`:
`dst(x, y) = src(x - tx, y - ty)` with bilinear sampling, output size equal to
the input frame's `(shape[1], shape[0])`. -/
def warpFrame (f : Frame) (tx ty : ℚ) : Frame :=
  (List.range f.length).map (fun y =>
    (List.range (f.headD []).length).map (fun x =>
      roundHalfUp (bilinearSample f (((x : ℕ) : ℚ) - tx) (((y : ℕ) : ℚ) - ty))))

/-- Stable insertion into a sorted list of rationals. -/
def insertLe (x : ℚ) : List ℚ → List ℚ
  | [] => [x]
  | y :: ys => if x ≤ y then x :: y :: ys else y :: insertLe x ys

/-- Insertion sort of rationals (ascending). -/
def sortQ : List ℚ → List ℚ
  | [] => []
  | x :: xs => insertLe x (sortQ xs)

/-- `np.median`: sort, take the middle element (odd length) or the mean of
the two middle elements (even length).  The empty case (NaN in numpy) is
never reached by the sources' call sites. -/
def npMedian (l : List ℚ) : ℚ :=
  let s := sortQ l
  let n := s.length
  if n = 0 then 0
  else if n % 2 = 1 then s.getD (n / 2) 0
  else (s.getD (n / 2 - 1) 0 + s.getD (n / 2) 0) / 2

/-- Boolean-mask row selection `pts[st == 1]`. -/
def maskSelect {α : Type} (pts : List α) (stat : List Bool) : List α :=
  (List.zip pts stat).filterMap (fun pb => if pb.2 then some pb.1 else none)

/-- `st.sum()` for a 0/1 status vector. -/
def countTrue (stat : List Bool) : ℕ :=
  stat.count true

/-- Rectangularity of a frame: `h` rows, each of width `w`. -/
def FrameRect (f : Frame) (h w : ℕ) : Prop :=
  f.length = h ∧ ∀ r ∈ f, r.length = w

/-- Shape of a rank-3 volume: `t` frames of `h × w` pixels. -/
def VolRect (v : Vol) (t h w : ℕ) : Prop :=
  v.length = t ∧ ∀ f ∈ v, FrameRect f h w

/-- All pixels of a frame lie in `[lo, hi]`. -/
def FrameBound (f : Frame) (lo hi : ℤ) : Prop :=
  ∀ r ∈ f, ∀ x ∈ r, lo ≤ x ∧ x ≤ hi

/-- All elements of a volume lie in `[lo, hi]` (dtype representability). -/
def VolBound (v : Vol) (lo hi : ℤ) : Prop :=
  ∀ f ∈ v, FrameBound f lo hi

instance (f : Frame) (h w : ℕ) : Decidable (FrameRect f h w) := by
  unfold FrameRect; infer_instance

instance (v : Vol) (t h w : ℕ) : Decidable (VolRect v t h w) := by
  unfold VolRect; infer_instance

instance (f : Frame) (lo hi : ℤ) : Decidable (FrameBound f lo hi) := by
  unfold FrameBound; infer_instance

instance (v : Vol) (lo hi : ℤ) : Decidable (VolBound v lo hi) := by
  unfold VolBound; infer_instance

/-! ## The optical-flow stabilizer (`ImageStabilizer.stabilize`) -/

/-- The two OpenCV calls of the optical-flow strategy, as oracles.
`goodFeaturesToTrack` models `cv2.goodFeaturesToTrack(gray, maxCorners=200,
qualityLevel=0.01, minDistance=30, blockSize=7)` (a point list; the tunables
are internal to the oracle).  `calcOpticalFlowPyrLK` models
`cv2.calcOpticalFlowPyrLK(ref_gray, curr_gray, p0, None)`, returning
`some (p1, st)` — with `st` the per-point success statuses — or `none` when
`p1 is None`. -/
structure FlowOracle where
  goodFeaturesToTrack : Frame → List (ℚ × ℚ)
  calcOpticalFlowPyrLK : Frame → Frame → List (ℚ × ℚ) → Option (List (ℚ × ℚ) × List Bool)

/-- The per-run mutable state of the optical-flow loop: the reference
grayscale frame, its tracked feature points, and the cumulative shifts. -/
structure FlowState where
  refGray : Frame
  p0 : List (ℚ × ℚ)
  cumX : ℚ
  cumY : ℚ
  deriving DecidableEq

/-- Result of one iteration of the loop body: the (still uint8) stabilized
frame, the translation-matrix entries actually passed to `cv2.warpAffine`
(`none` when no warp happened), and the updated state. -/
structure FlowStepOut where
  outFrame : Frame
  applied : Option (ℚ × ℚ)
  state : FlowState
  deriving DecidableEq

/-- One iteration of the loop body of `ImageStabilizer.stabilize`
(optical-flow file lines 71-126): track against the reference; if `p1` is not
`None` and at least 10 points tracked, take per-axis medians of the point
displacements, clamp to ±20, add into the cumulative shift, warp the current
uint8 frame by the negated cumulative shift and refresh the reference and
features; otherwise pass the frame through and leave all state unchanged. -/
def flowStep (O : FlowOracle) (s : FlowState) (cur : Frame) : FlowStepOut :=
  let currGray := cur
  match O.calcOpticalFlowPyrLK s.refGray currGray s.p0 with
  | some (p1, stat) =>
    if 10 ≤ countTrue stat then
      let goodOld := maskSelect s.p0 stat
      let goodNew := maskSelect p1 stat
      let disps := List.zipWith (fun a b => (a.1 - b.1, a.2 - b.2)) goodNew goodOld
      let shiftX := npClip (npMedian (disps.map Prod.fst)) (-20) 20
      let shiftY := npClip (npMedian (disps.map Prod.snd)) (-20) 20
      let cumX := s.cumX + shiftX
      let cumY := s.cumY + shiftY
      { outFrame := warpFrame cur (-cumX) (-cumY)
        applied := some (-cumX, -cumY)
        state := { refGray := currGray, p0 := O.goodFeaturesToTrack currGray,
                   cumX := cumX, cumY := cumY } }
    else
      { outFrame := cur, applied := none, state := s }
  | none =>
    { outFrame := cur, applied := none, state := s }

/-- The `for i in range(num_frames)` loop of `ImageStabilizer.stabilize`:
run the loop body on each time index, convert each resulting frame back to
the native range and dtype, and write it into the output volume.  The list of
`applied` translations is a ghost trace recording the warp calls. -/
def flowLoop (O : FlowOracle) (mn mx : ℤ) (u8 : Vol) :
    List ℕ → Vol × List (Option (ℚ × ℚ)) × FlowState →
    Vol × List (Option (ℚ × ℚ)) × FlowState
  | [], acc => acc
  | i :: rest, (vol, tr, s) =>
      let cur := u8.getD i []
      let r := flowStep O s cur
      let back := backFrame mn mx r.outFrame
      flowLoop O mn mx u8 rest (vol.set i back, tr ++ [r.applied], r.state)

/-- The body of `ImageStabilizer.stabilize` after axis resolution (lines
40-138): normalise the whole volume to uint8, seed the reference and feature
points on time index 0, run the loop over `range(num_frames)` starting from
`stabilized_data = np.copy(data)` and zero cumulative shifts. -/
def flowRun (O : FlowOracle) (nanCast : ℤ) (data : Vol) :
    Vol × List (Option (ℚ × ℚ)) × FlowState :=
  let mn := volMin data
  let mx := volMax data
  let u8 := normVol nanCast mn mx data
  let refGray := u8.getD 0 []
  let p0 := O.goodFeaturesToTrack refGray
  flowLoop O mn mx u8 (List.range data.length)
    (data, [], { refGray := refGray, p0 := p0, cumX := 0, cumY := 0 })

/-- The stabilized output volume. -/
def flowRunVol (O : FlowOracle) (nanCast : ℤ) (data : Vol) : Vol :=
  (flowRun O nanCast data).1

/-- The ghost trace of warp translations, one entry per time index. -/
def flowRunTrace (O : FlowOracle) (nanCast : ℤ) (data : Vol) :
    List (Option (ℚ × ℚ)) :=
  (flowRun O nanCast data).2.1

/-- The state reached before processing time index `i` (`flowSteps … 0` is
the seeded state). -/
def flowSteps (O : FlowOracle) (u8 : Vol) (init : FlowState) : ℕ → FlowState
  | 0 => init
  | i + 1 => (flowStep O (flowSteps O u8 init i) (u8.getD i [])).state

/-- `ImageStabilizer.stabilize(data, axes)` (lines 30-138): if `axes` is
`None`, time is dimension 0; otherwise `axes.find('T')`, raising
`ValueError` when absent.  `data.min()` on an empty volume raises a numpy
`ValueError` (zero-size reduction).  The embedding covers time-first rank-3
volumes, so the pipeline indexes dimension 0. -/
def stabilize (O : FlowOracle) (nanCast : ℤ) (data : Vol)
    (axes : Option (List Char)) : Except String Vol :=
  let tRes : Except String ℕ :=
    match axes with
    | none => .ok 0
    | some s =>
      match s.findIdx? (fun c => c == 'T') with
      | some i => .ok i
      | none => .error "No time axis T found in data"
  match tRes with
  | .error e => .error e
  | .ok _tIndex =>
    if volElems data = [] then .error "zero-size array to reduction operation"
    else .ok (flowRunVol O nanCast data)

/-! ## The feature-match stabilizer (`RANSACStabilizer.stabilize`)

The Python source of this method has a dedented block: the
`if len(matches) >= 3:` RANSAC fit (lines 83-127) sits *outside* the
`for i in range(num_frames)` loop (lines 64-79), and the back-conversion and
`_set_frame` write-back (lines 129-137) are indented under the
`else:` (fewer than 3 matches) branch.  The embedding reproduces this
structure exactly, including the Python scoping by which `matches`,
`curr_kp`, `curr_des`, `current_frame` and `i` leak out of the loop with the
values of the last iteration that assigned them, and the `NameError` raised
when `matches` was never assigned. -/

/-- A `cv2.DMatch`: indices into the reference/current keypoint lists and a
Hamming distance. -/
structure DMatch where
  queryIdx : ℕ
  trainIdx : ℕ
  distance : ℚ
  deriving DecidableEq

/-- A 2×3 affine matrix as returned by `cv2.estimateAffinePartial2D`. -/
structure Mat23 where
  m00 : ℚ
  m01 : ℚ
  m02 : ℚ
  m10 : ℚ
  m11 : ℚ
  m12 : ℚ
  deriving DecidableEq

/-- The OpenCV calls of the feature-match strategy, as oracles over an
abstract descriptor type `δ`.  `detectAndCompute` models
`orb.detectAndCompute(gray, None)` with `orb = cv2.ORB_create(nfeatures=500)`
(descriptors may be `None`); `bfMatch` models
`cv2.BFMatcher(cv2.NORM_HAMMING, crossCheck=True).match(ref_des, curr_des)`;
`estimateAffinePartial2D` models `cv2.estimateAffinePartial2D(curr_pts,
ref_pts, method=cv2.RANSAC, ransacReprojThreshold=3, maxIters=2000,
confidence=0.99)` (the matrix may be `None`). -/
structure OrbOracle (δ : Type) where
  detectAndCompute : Frame → List (ℚ × ℚ) × Option δ
  bfMatch : δ → δ → List DMatch
  estimateAffinePartial2D : List (ℚ × ℚ) → List (ℚ × ℚ) → Option Mat23

/-- Stable insertion by ascending match distance. -/
def insertByDist (m : DMatch) : List DMatch → List DMatch
  | [] => [m]
  | y :: ys => if m.distance ≤ y.distance then m :: y :: ys else y :: insertByDist m ys

/-- `sorted(matches, key=lambda x: x.distance)`. -/
def sortByDist : List DMatch → List DMatch
  | [] => []
  | m :: ms => insertByDist m (sortByDist ms)

/-- The loop-local Python variables that survive past the end of the
`for i in range(num_frames)` loop.  `none` models a still-unbound name. -/
structure RLoopState (δ : Type) where
  matchesVar : Option (List DMatch)
  currKp : List (ℚ × ℚ)
  currDes : Option δ
  currFrame : Option Frame

/-- The `for i in range(num_frames)` loop of `RANSACStabilizer.stabilize`
(lines 64-79): per frame, detect keypoints/descriptors; if both the current
and the reference descriptors are present, match and sort them (the matched
point extraction of lines 77-79 has no further effect).  Nothing is warped or
written back inside the loop; only the leaked variables evolve. -/
def rLoop {δ : Type} (O : OrbOracle δ) (u8 : Vol) (refDes : Option δ) :
    List ℕ → RLoopState δ → RLoopState δ
  | [], s => s
  | i :: rest, s =>
    let cur := u8.getD i []
    let currGray := cur
    let kd := O.detectAndCompute currGray
    let s' : RLoopState δ :=
      match kd.2, refDes with
      | some d, some rd =>
        { matchesVar := some (sortByDist (O.bfMatch rd d)),
          currKp := kd.1, currDes := some d, currFrame := some cur }
      | d?, _ =>
        { s with currKp := kd.1, currDes := d?, currFrame := some cur }
    rLoop O u8 refDes rest s'

/-- The dedented block after the loop (lines 83-137): one RANSAC fit from the
*leftover* `matches` of the loop's last matching iteration.  When the fit
succeeds, the translation column is clamped and the last frame is warped —
and the result is discarded (the write-back lines 129-137 are under the
`else`).  Only when `len(matches) < 3` is anything written back: the
unwarped last frame (index `n - 1`), converted to the native range.
The returned pair is the output volume together with the ghost observable of
the translation passed to `cv2.warpAffine` (`none` when no warp ran). -/
def ransacPost {δ : Type} (O : OrbOracle δ) (mn mx : ℤ)
    (refKp : List (ℚ × ℚ)) (s : RLoopState δ) (stab : Vol) (n : ℕ) :
    Except String (Vol × Option (ℚ × ℚ)) :=
  match s.matchesVar with
  | none => .error "NameError: name matches is not defined"
  | some ms =>
    if 3 ≤ ms.length then
      let refPts := ms.map (fun m => refKp.getD m.queryIdx (0, 0))
      let currPts := ms.map (fun m => s.currKp.getD m.trainIdx (0, 0))
      match O.estimateAffinePartial2D currPts refPts with
      | some M =>
        let shiftX := npClip M.m02 (-20) 20
        let shiftY := npClip M.m12 (-20) 20
        let _stabilizedFrame := warpFrame (s.currFrame.getD []) shiftX shiftY
        .ok (stab, some (shiftX, shiftY))
      | none =>
        .ok (stab, none)
    else
      let stabilizedFrame := s.currFrame.getD []
      .ok (stab.set (n - 1) (backFrame mn mx stabilizedFrame), none)

/-- `RANSACStabilizer.stabilize` after the TIFF read (lines 33-137): uint8
normalisation (before the axis check, as in the source), `axes.find('T')`
with a `ValueError` when absent, keypoints/descriptors of the first frame as
the fixed reference, the per-frame matching loop, and the dedented post-loop
block.  `data.min()` on an empty volume raises; with at least one frame,
`current_frame` is bound after the loop.  The embedding covers time-first
rank-3 volumes. -/
def ransacStabilize {δ : Type} (O : OrbOracle δ) (nanCast : ℤ) (data : Vol)
    (axes : List Char) : Except String (Vol × Option (ℚ × ℚ)) :=
  if volElems data = [] then .error "zero-size array to reduction operation"
  else
    let mn := volMin data
    let mx := volMax data
    let u8 := normVol nanCast mn mx data
    match axes.findIdx? (fun c => c == 'T') with
    | none => .error "No time axis T found in data"
    | some _tIndex =>
      let n := data.length
      let stab := data
      let refFrame := u8.getD 0 []
      let refGray := refFrame
      let rkd := O.detectAndCompute refGray
      let s0 : RLoopState δ :=
        { matchesVar := none, currKp := [], currDes := none, currFrame := none }
      let s := rLoop O u8 rkd.2 (List.range n) s0
      ransacPost O mn mx rkd.1 s stab n

/-! ## Concrete oracle instances and volumes used to evaluate the pipelines -/

/-- A flow oracle that tracks ten features with zero displacement (the
behaviour of `calcOpticalFlowPyrLK` on two identical, well-textured frames). -/
def estZero : FlowOracle :=
  { goodFeaturesToTrack := fun _ => List.replicate 10 (0, 0),
    calcOpticalFlowPyrLK := fun _ _ p => some (p, List.replicate p.length true) }

/-- A flow oracle that never tracks (models `p1 is None`; every frame has
insufficient evidence). -/
def estInsufficient : FlowOracle :=
  { goodFeaturesToTrack := fun _ => [],
    calcOpticalFlowPyrLK := fun _ _ _ => none }

/-- A flow oracle whose ten tracked features all move by +15 px in x each
step. -/
def estFifteen : FlowOracle :=
  { goodFeaturesToTrack := fun _ => List.replicate 10 (0, 0),
    calcOpticalFlowPyrLK := fun _ _ p =>
      some (p.map (fun q => (q.1 + 15, q.2)), List.replicate 10 true) }

/-- An ORB oracle that always yields three mutually matching keypoints and an
affine fit translating by (5, 0). -/
def orbThreeMatches : OrbOracle Unit :=
  { detectAndCompute := fun _ => ([(0, 0), (1, 0), (0, 1)], some ()),
    bfMatch := fun _ _ => [⟨0, 0, 0⟩, ⟨1, 1, 0⟩, ⟨2, 2, 0⟩],
    estimateAffinePartial2D := fun _ _ => some ⟨1, 0, 5, 0, 1, 0⟩ }

/-- An ORB oracle (descriptors = the frames themselves) for which the
reference frame yields three matches but any other frame yields only one:
only the first frame of a run has enough matches. -/
def orbFirstFrameOnly : OrbOracle Frame :=
  { detectAndCompute := fun f => ([(0, 0), (1, 0), (0, 1)], some f),
    bfMatch := fun rd d =>
      if d = rd then [⟨0, 0, 0⟩, ⟨1, 1, 0⟩, ⟨2, 2, 0⟩] else [⟨0, 0, 0⟩],
    estimateAffinePartial2D := fun _ _ => some ⟨1, 0, 5, 0, 1, 0⟩ }

/-- An ORB oracle with three matches whose RANSAC fit reports a 50 px
x-translation (the spec's synthetic large-translation test). -/
def orbFifty : OrbOracle Unit :=
  { detectAndCompute := fun _ => ([(0, 0), (1, 0), (0, 1)], some ()),
    bfMatch := fun _ _ => [⟨0, 0, 0⟩, ⟨1, 1, 0⟩, ⟨2, 2, 0⟩],
    estimateAffinePartial2D := fun _ _ => some ⟨1, 0, 50, 0, 1, 0⟩ }

/-- The axis string `"TYX"`. -/
def axesTYX : List Char := ['T', 'Y', 'X']

/-- The uint8 tracking copy of a volume, with the run's own global min/max. -/
def flowU8 (nanCast : ℤ) (data : Vol) : Vol :=
  normVol nanCast (volMin data) (volMax data) data

/-- The seeded state of an optical-flow run: reference = normalized frame 0,
features detected on it, zero cumulative shifts (lines 52-69). -/
def flowInit (O : FlowOracle) (nanCast : ℤ) (data : Vol) : FlowState :=
  { refGray := (flowU8 nanCast data).getD 0 []
    p0 := O.goodFeaturesToTrack ((flowU8 nanCast data).getD 0 [])
    cumX := 0
    cumY := 0 }

/-! ## Arithmetic helper lemmas -/

theorem truncQ_intCast (n : ℤ) : truncQ (n : ℚ) = n := by
  unfold truncQ
  split
  · rw [← Int.cast_neg, Int.floor_intCast]; omega
  · rw [Int.floor_intCast]

theorem truncQ_of_nonneg {q : ℚ} (h : 0 ≤ q) : truncQ q = ⌊q⌋ := by
  unfold truncQ
  split
  · rename_i hneg
    exact absurd hneg (not_lt.mpr h)
  · rfl

theorem npClip_mem {x lo hi : ℚ} (h : lo ≤ hi) :
    lo ≤ npClip x lo hi ∧ npClip x lo hi ≤ hi := by
  unfold npClip
  constructor
  · exact le_max_left lo (min x hi)
  · exact max_le h (min_le_right x hi)

theorem abs_npClip_le (x : ℚ) : |npClip x (-20) 20| ≤ 20 := by
  have h := npClip_mem (x := x) (by norm_num : (-20 : ℚ) ≤ 20)
  rw [abs_le]
  exact ⟨h.1, h.2⟩

theorem truncQ_le_of_le {q : ℚ} {b : ℤ} (hq : 0 ≤ b ∨ 0 ≤ q) (h : q ≤ (b : ℚ)) :
    truncQ q ≤ b := by
  unfold truncQ
  split
  · rename_i hneg
    rcases hq with hb | hq
    · have : 0 ≤ ⌊-q⌋ := Int.floor_nonneg.mpr (by linarith)
      omega
    · linarith
  · exact Int.floor_le_floor h |>.trans_eq (Int.floor_intCast b)

theorem le_truncQ_of_le {q : ℚ} {a : ℤ} (ha : a ≤ 0 ∨ 0 ≤ q) (h : (a : ℚ) ≤ q) :
    a ≤ truncQ q := by
  unfold truncQ
  split
  · rename_i hneg
    rcases ha with ha | hq
    · have h2 : ⌊-q⌋ ≤ -a := by
        have hle : -q ≤ ((-a : ℤ) : ℚ) := by push_cast; linarith
        have := Int.floor_le_floor hle
        rwa [Int.floor_intCast] at this
      omega
    · linarith
  · calc a = ⌊(a : ℚ)⌋ := (Int.floor_intCast a).symm
      _ ≤ ⌊q⌋ := Int.floor_le_floor h

theorem foldl_min_le_init (xs : List ℤ) (a : ℤ) : xs.foldl min a ≤ a := by
  induction xs generalizing a with
  | nil => simp
  | cons x xs ih =>
    simp only [List.foldl_cons]
    exact (ih (min a x)).trans (min_le_left a x)

theorem foldl_min_le_mem {xs : List ℤ} {y : ℤ} (hy : y ∈ xs) (a : ℤ) :
    xs.foldl min a ≤ y := by
  induction xs generalizing a with
  | nil => cases hy
  | cons x xs ih =>
    simp only [List.foldl_cons]
    rcases List.mem_cons.mp hy with rfl | hmem
    · exact (foldl_min_le_init xs (min a y)).trans (min_le_right a y)
    · exact ih hmem (min a x)

theorem le_foldl_min {xs : List ℤ} {c a : ℤ} (ha : c ≤ a) (hxs : ∀ y ∈ xs, c ≤ y) :
    c ≤ xs.foldl min a := by
  induction xs generalizing a with
  | nil => simpa
  | cons x xs ih =>
    simp only [List.foldl_cons]
    exact ih (le_min ha (hxs x (List.mem_cons_self x xs)))
      (fun y hy => hxs y (List.mem_cons_of_mem x hy))

theorem init_le_foldl_max (xs : List ℤ) (a : ℤ) : a ≤ xs.foldl max a := by
  induction xs generalizing a with
  | nil => simp
  | cons x xs ih =>
    simp only [List.foldl_cons]
    exact (le_max_left a x).trans (ih (max a x))

theorem mem_le_foldl_max {xs : List ℤ} {y : ℤ} (hy : y ∈ xs) (a : ℤ) :
    y ≤ xs.foldl max a := by
  induction xs generalizing a with
  | nil => cases hy
  | cons x xs ih =>
    simp only [List.foldl_cons]
    rcases List.mem_cons.mp hy with rfl | hmem
    · exact (le_max_right a y).trans (init_le_foldl_max xs (max a y))
    · exact ih hmem (max a x)

theorem foldl_max_le {xs : List ℤ} {c a : ℤ} (ha : a ≤ c) (hxs : ∀ y ∈ xs, y ≤ c) :
    xs.foldl max a ≤ c := by
  induction xs generalizing a with
  | nil => simpa
  | cons x xs ih =>
    simp only [List.foldl_cons]
    exact ih (max_le ha (hxs x (List.mem_cons_self x xs)))
      (fun y hy => hxs y (List.mem_cons_of_mem x hy))

theorem volMin_le_mem {v : Vol} {y : ℤ} (hy : y ∈ volElems v) : volMin v ≤ y := by
  unfold volMin
  cases h : volElems v with
  | nil => rw [h] at hy; cases hy
  | cons x xs =>
    rw [h] at hy
    rcases List.mem_cons.mp hy with rfl | hmem
    · exact foldl_min_le_init xs y
    · exact foldl_min_le_mem hmem x

theorem mem_le_volMax {v : Vol} {y : ℤ} (hy : y ∈ volElems v) : y ≤ volMax v := by
  unfold volMax
  cases h : volElems v with
  | nil => rw [h] at hy; cases hy
  | cons x xs =>
    rw [h] at hy
    rcases List.mem_cons.mp hy with rfl | hmem
    · exact init_le_foldl_max xs y
    · exact mem_le_foldl_max hmem x

theorem volMin_le_volMax (v : Vol) : volMin v ≤ volMax v := by
  unfold volMin volMax
  cases h : volElems v with
  | nil => exact le_refl 0
  | cons x xs =>
    exact (foldl_min_le_init xs x).trans (init_le_foldl_max xs x)

/-- Membership in a frame's flattened element list. -/
theorem mem_frameElems {f : Frame} {r : List ℤ} {x : ℤ}
    (hr : r ∈ f) (hx : x ∈ r) : x ∈ frameElems f := by
  induction f with
  | nil => cases hr
  | cons row g ihg =>
    simp only [frameElems, List.mem_append]
    rcases List.mem_cons.mp hr with rfl | hrmem
    · exact Or.inl hx
    · exact Or.inr (ihg hrmem)

/-- Membership in the flattened element list, from the nested membership. -/
theorem mem_volElems {v : Vol} {f : Frame} {r : List ℤ} {x : ℤ}
    (hf : f ∈ v) (hr : r ∈ f) (hx : x ∈ r) : x ∈ volElems v := by
  induction v with
  | nil => cases hf
  | cons g v ih =>
    simp only [volElems, List.mem_append]
    rcases List.mem_cons.mp hf with rfl | hmem
    · exact Or.inl (mem_frameElems hr hx)
    · exact Or.inr (ih hmem)

theorem volMin_bound {v : Vol} {lo hi : ℤ} (hb : VolBound v lo hi)
    (hlo : lo ≤ 0) (hhi : 0 ≤ hi) : lo ≤ volMin v ∧ volMax v ≤ hi := by
  have helem : ∀ y ∈ volElems v, lo ≤ y ∧ y ≤ hi := by
    intro y hy
    induction v with
    | nil => cases hy
    | cons f v ih =>
      simp only [volElems, List.mem_append] at hy
      rcases hy with hyf | hyv
      · have hfb : FrameBound f lo hi := hb f (List.mem_cons_self f v)
        clear ih hb
        induction f with
        | nil => cases hyf
        | cons r f ihf =>
          simp only [frameElems, List.mem_append] at hyf
          rcases hyf with hyr | hyf2
          · exact hfb r (List.mem_cons_self r f) y hyr
          · exact ihf hyf2 (fun r2 hr2 => hfb r2 (List.mem_cons_of_mem r hr2))
      · exact ih (fun g hg => hb g (List.mem_cons_of_mem f hg)) hyv
  constructor
  · unfold volMin
    cases h : volElems v with
    | nil => exact hlo
    | cons x xs =>
      exact le_foldl_min (helem x (h ▸ List.mem_cons_self x xs)).1
        (fun y hy => (helem y (h ▸ List.mem_cons_of_mem x hy)).1)
  · unfold volMax
    cases h : volElems v with
    | nil => exact hhi
    | cons x xs =>
      exact foldl_max_le (helem x (h ▸ List.mem_cons_self x xs)).2
        (fun y hy => (helem y (h ▸ List.mem_cons_of_mem x hy)).2)

/-! ## Normalisation bounds and the round trip -/

theorem toU8_bound {nc mn mx x : ℤ} (hlt : mn < mx) (h1 : mn ≤ x) (h2 : x ≤ mx) :
    0 ≤ toU8 nc mn mx x ∧ toU8 nc mn mx x ≤ 255 := by
  unfold toU8
  rw [if_neg (by omega)]
  set t : ℚ := ((x : ℚ) - (mn : ℚ)) / ((mx : ℚ) - (mn : ℚ)) * 255 with ht
  have hs : (0 : ℚ) < (mx : ℚ) - (mn : ℚ) := by
    have : (mn : ℚ) < (mx : ℚ) := by exact_mod_cast hlt
    linarith
  have ht0 : 0 ≤ t := by
    apply mul_nonneg _ (by norm_num)
    apply div_nonneg _ (le_of_lt hs)
    have : (mn : ℚ) ≤ (x : ℚ) := by exact_mod_cast h1
    linarith
  have ht255 : t ≤ 255 := by
    rw [ht]
    have hx : (x : ℚ) - (mn : ℚ) ≤ (mx : ℚ) - (mn : ℚ) := by
      have : (x : ℚ) ≤ (mx : ℚ) := by exact_mod_cast h2
      linarith
    have hdiv : ((x : ℚ) - (mn : ℚ)) / ((mx : ℚ) - (mn : ℚ)) ≤ 1 :=
      (div_le_one hs).mpr hx
    nlinarith
  constructor
  · exact le_truncQ_of_le (Or.inr ht0) (by exact_mod_cast ht0)
  · exact truncQ_le_of_le (Or.inl (by norm_num)) (by exact_mod_cast ht255)

theorem fromU8Q_bound {mn mx u : ℤ} (hle : mn ≤ mx) (h0 : 0 ≤ u) (h255 : u ≤ 255) :
    (mn : ℚ) ≤ fromU8Q mn mx u ∧ fromU8Q mn mx u ≤ (mx : ℚ) := by
  unfold fromU8Q
  have hs : (0 : ℚ) ≤ (mx : ℚ) - (mn : ℚ) := by
    have : (mn : ℚ) ≤ (mx : ℚ) := by exact_mod_cast hle
    linarith
  have hu0 : (0 : ℚ) ≤ (u : ℚ) / 255 := by positivity
  have hu1 : (u : ℚ) / 255 ≤ 1 := by
    rw [div_le_one (by norm_num)]
    exact_mod_cast h255
  constructor
  · nlinarith
  · nlinarith

theorem truncQ_range_bound {q : ℚ} {mn mx lo hi : ℤ}
    (h1 : (mn : ℚ) ≤ q) (h2 : q ≤ (mx : ℚ)) (hlo : lo ≤ mn) (hhi : mx ≤ hi)
    (hlo0 : lo ≤ 0) (hhi0 : 0 ≤ hi) : lo ≤ truncQ q ∧ truncQ q ≤ hi := by
  rcases le_or_lt 0 q with hq | hq
  · rw [truncQ_of_nonneg hq]
    constructor
    · have : (0 : ℤ) ≤ ⌊q⌋ := Int.floor_nonneg.mpr hq
      omega
    · have : ⌊q⌋ ≤ mx := by
        calc ⌊q⌋ ≤ ⌊(mx : ℚ)⌋ := Int.floor_le_floor h2
          _ = mx := Int.floor_intCast mx
      omega
  · unfold truncQ
    rw [if_pos hq]
    have hfl : 0 ≤ ⌊-q⌋ := Int.floor_nonneg.mpr (by linarith)
    have hfl2 : ⌊-q⌋ ≤ -mn := by
      calc ⌊-q⌋ ≤ ⌊((-mn : ℤ) : ℚ)⌋ := by
            apply Int.floor_le_floor
            push_cast
            linarith
        _ = -mn := Int.floor_intCast (-mn)
    omega

/-- `fromU8` ignores its uint8 argument entirely when the volume range is
degenerate: the inverse map multiplies by `mx - mn = 0` and adds `mn`. -/
theorem fromU8_degenerate (mn u : ℤ) : fromU8 mn mn u = mn := by
  unfold fromU8 fromU8Q
  have : ((u : ℚ) / 255 * ((mn : ℚ) - (mn : ℚ)) + (mn : ℚ)) = (mn : ℚ) := by ring
  rw [this, truncQ_intCast]

theorem fromU8_range_bound {mn mx u lo hi : ℤ} (hle : mn ≤ mx)
    (h0 : 0 ≤ u) (h255 : u ≤ 255) (hlo : lo ≤ mn) (hhi : mx ≤ hi)
    (hlo0 : lo ≤ 0) (hhi0 : 0 ≤ hi) : lo ≤ fromU8 mn mx u ∧ fromU8 mn mx u ≤ hi := by
  have hb := fromU8Q_bound hle h0 h255
  exact truncQ_range_bound hb.1 hb.2 hlo hhi hlo0 hhi0

/-- The quantization error of the uint8 round trip, before the final dtype
cast: the inverse affine map undershoots the original value by at least 0 and
strictly less than one quantization step `(mx - mn) / 255`. -/
theorem roundTrip_pre_cast_bound {nc mn mx x : ℤ} (hlt : mn < mx)
    (h1 : mn ≤ x) (h2 : x ≤ mx) :
    0 ≤ (x : ℚ) - fromU8Q mn mx (toU8 nc mn mx x) ∧
      (x : ℚ) - fromU8Q mn mx (toU8 nc mn mx x) < ((mx : ℚ) - (mn : ℚ)) / 255 := by
  have hs : (0 : ℚ) < (mx : ℚ) - (mn : ℚ) := by
    have : (mn : ℚ) < (mx : ℚ) := by exact_mod_cast hlt
    linarith
  set t : ℚ := ((x : ℚ) - (mn : ℚ)) / ((mx : ℚ) - (mn : ℚ)) * 255 with ht
  have ht0 : 0 ≤ t := by
    apply mul_nonneg _ (by norm_num)
    apply div_nonneg _ (le_of_lt hs)
    have : (mn : ℚ) ≤ (x : ℚ) := by exact_mod_cast h1
    linarith
  have htu : toU8 nc mn mx x = ⌊t⌋ := by
    unfold toU8
    rw [if_neg (by omega), truncQ_of_nonneg ht0]
  have hx : (x : ℚ) = t * ((mx : ℚ) - (mn : ℚ)) / 255 + (mn : ℚ) := by
    rw [ht]
    field_simp
  have hfl : (⌊t⌋ : ℚ) ≤ t := Int.floor_le t
  have hfl2 : t < (⌊t⌋ : ℚ) + 1 := Int.lt_floor_add_one t
  rw [htu]
  have hdiff : (x : ℚ) - fromU8Q mn mx ⌊t⌋ =
      (t - (⌊t⌋ : ℚ)) * ((mx : ℚ) - (mn : ℚ)) / 255 := by
    unfold fromU8Q
    rw [hx]
    ring
  rw [hdiff]
  constructor
  · apply div_nonneg _ (by norm_num : (0 : ℚ) ≤ 255)
    exact mul_nonneg (by linarith) (le_of_lt hs)
  · rw [div_lt_div_iff_of_pos_right (by norm_num : (0 : ℚ) < 255)]
    nlinarith

/-- The quantization error of the full uint8 round trip including the final
dtype cast: strictly less than one quantization step plus one. -/
theorem roundTrip_cast_bound {nc mn mx x : ℤ} (hlt : mn < mx)
    (h1 : mn ≤ x) (h2 : x ≤ mx) :
    |(x : ℚ) - (fromU8 mn mx (toU8 nc mn mx x) : ℚ)| <
      ((mx : ℚ) - (mn : ℚ)) / 255 + 1 := by
  obtain ⟨hlo, hup⟩ := @roundTrip_pre_cast_bound nc mn mx x hlt h1 h2
  set b : ℚ := fromU8Q mn mx (toU8 nc mn mx x) with hb
  have hs : (0 : ℚ) < (mx : ℚ) - (mn : ℚ) := by
    have : (mn : ℚ) < (mx : ℚ) := by exact_mod_cast hlt
    linarith
  have hstep : (0 : ℚ) < ((mx : ℚ) - (mn : ℚ)) / 255 := by positivity
  have hcast : (fromU8 mn mx (toU8 nc mn mx x) : ℚ) = (truncQ b : ℚ) := by
    unfold fromU8
    rw [hb]
  rw [hcast, abs_lt]
  rcases le_or_lt 0 b with hbpos | hbneg
  · rw [truncQ_of_nonneg hbpos]
    have hfl : (⌊b⌋ : ℚ) ≤ b := Int.floor_le b
    have hfl2 : b < (⌊b⌋ : ℚ) + 1 := Int.lt_floor_add_one b
    constructor <;> linarith
  · unfold truncQ
    rw [if_pos hbneg]
    push_cast
    have hfl : (⌊-b⌋ : ℚ) ≤ -b := Int.floor_le (-b)
    have hfl2 : -b < (⌊-b⌋ : ℚ) + 1 := Int.lt_floor_add_one (-b)
    constructor <;> linarith

/-! ## Warp lemmas: shape, bounds, and identity at zero shift -/

theorem getD_mem_or {α : Type} (l : List α) (n : ℕ) (d : α) :
    l.getD n d ∈ l ∨ l.getD n d = d := by
  induction l generalizing n with
  | nil => right; rfl
  | cons a l ih =>
    cases n with
    | zero => left; exact List.mem_cons_self a l
    | succ m =>
      rcases ih m with hmem | hd
      · left; exact List.mem_cons_of_mem a hmem
      · right; exact hd

theorem warpFrame_rect {f : Frame} {h w : ℕ} (hf : FrameRect f h w) (tx ty : ℚ) :
    FrameRect (warpFrame f tx ty) h w := by
  unfold warpFrame
  constructor
  · rw [List.length_map, List.length_range, hf.1]
  · intro r hr
    rw [List.mem_map] at hr
    obtain ⟨y, hy, rfl⟩ := hr
    rw [List.length_map, List.length_range]
    cases f with
    | nil => simp at hy
    | cons r0 f' => exact hf.2 r0 (List.mem_cons_self r0 f')

theorem pxAt_bound {f : Frame} {A B : ℤ} (hb : FrameBound f A B)
    (hA : A ≤ 0) (hB : 0 ≤ B) (yy xx : ℤ) :
    (A : ℚ) ≤ pxAt f yy xx ∧ pxAt f yy xx ≤ (B : ℚ) := by
  unfold pxAt
  split
  · rcases getD_mem_or f yy.toNat [] with hrow | hdef
    · rcases getD_mem_or (f.getD yy.toNat []) xx.toNat 0 with hel | hel
      · have := hb _ hrow _ hel
        exact ⟨by exact_mod_cast this.1, by exact_mod_cast this.2⟩
      · rw [hel]
        exact ⟨by exact_mod_cast hA, by exact_mod_cast hB⟩
    · rw [hdef]
      simp only [List.getD]
      exact ⟨by exact_mod_cast hA, by exact_mod_cast hB⟩
  · exact ⟨by exact_mod_cast hA, by exact_mod_cast hB⟩

theorem convex_bound {A B u v t : ℚ} (hAu : A ≤ u) (huB : u ≤ B)
    (hAv : A ≤ v) (hvB : v ≤ B) (h0 : 0 ≤ t) (h1 : t ≤ 1) :
    A ≤ (1 - t) * u + t * v ∧ (1 - t) * u + t * v ≤ B := by
  constructor <;> nlinarith

theorem bilinearSample_bound {f : Frame} {A B : ℤ} (hb : FrameBound f A B)
    (hA : A ≤ 0) (hB : 0 ≤ B) (xs ys : ℚ) :
    (A : ℚ) ≤ bilinearSample f xs ys ∧ bilinearSample f xs ys ≤ (B : ℚ) := by
  unfold bilinearSample
  have hax0 : 0 ≤ xs - (⌊xs⌋ : ℚ) := by
    have := Int.floor_le xs; linarith
  have hax1 : xs - (⌊xs⌋ : ℚ) ≤ 1 := by
    have := Int.lt_floor_add_one xs; linarith
  have hay0 : 0 ≤ ys - (⌊ys⌋ : ℚ) := by
    have := Int.floor_le ys; linarith
  have hay1 : ys - (⌊ys⌋ : ℚ) ≤ 1 := by
    have := Int.lt_floor_add_one ys; linarith
  have h00 := pxAt_bound hb hA hB ⌊ys⌋ ⌊xs⌋
  have h01 := pxAt_bound hb hA hB ⌊ys⌋ (⌊xs⌋ + 1)
  have h10 := pxAt_bound hb hA hB (⌊ys⌋ + 1) ⌊xs⌋
  have h11 := pxAt_bound hb hA hB (⌊ys⌋ + 1) (⌊xs⌋ + 1)
  have hrow0 := convex_bound h00.1 h00.2 h01.1 h01.2 hax0 hax1
  have hrow1 := convex_bound h10.1 h10.2 h11.1 h11.2 hax0 hax1
  exact convex_bound hrow0.1 hrow0.2 hrow1.1 hrow1.2 hay0 hay1

theorem roundHalfUp_bound {q : ℚ} {A B : ℤ} (hA : (A : ℚ) ≤ q) (hB : q ≤ (B : ℚ)) :
    A ≤ roundHalfUp q ∧ roundHalfUp q ≤ B := by
  unfold roundHalfUp
  constructor
  · rw [Int.le_floor]
    push_cast
    linarith
  · have h1 : ⌊q + 1 / 2⌋ ≤ ⌊(B : ℚ) + 1 / 2⌋ := Int.floor_le_floor (by linarith)
    have h2 : ⌊(B : ℚ) + 1 / 2⌋ = B := by
      rw [Int.floor_eq_iff]
      constructor
      · linarith
      · push_cast
        linarith
    omega

theorem warpFrame_bound {f : Frame} {A B : ℤ} (hb : FrameBound f A B)
    (hA : A ≤ 0) (hB : 0 ≤ B) (tx ty : ℚ) :
    FrameBound (warpFrame f tx ty) A B := by
  intro r hr x hx
  simp only [warpFrame, List.mem_map] at hr
  obtain ⟨y, _, rfl⟩ := hr
  simp only [List.mem_map] at hx
  obtain ⟨xc, _, rfl⟩ := hx
  have := bilinearSample_bound hb hA hB (((xc : ℕ) : ℚ) - tx) (((y : ℕ) : ℚ) - ty)
  exact roundHalfUp_bound this.1 this.2

theorem map_getD_range {α : Type} (l : List α) (d : α) :
    (List.range l.length).map (fun i => l.getD i d) = l := by
  induction l with
  | nil => rfl
  | cons a l ih =>
    rw [List.length_cons, List.range_succ_eq_map, List.map_cons, List.map_map]
    simp only [List.getD]
    congr 1

theorem roundHalfUp_intCast (n : ℤ) : roundHalfUp (n : ℚ) = n := by
  unfold roundHalfUp
  rw [add_comm, Int.floor_add_int, (by norm_num : ⌊(1 : ℚ) / 2⌋ = 0)]
  omega

theorem pxAt_natCast (f : Frame) (y x : ℕ) :
    pxAt f ((y : ℕ) : ℤ) ((x : ℕ) : ℤ) = (((f.getD y []).getD x 0 : ℤ) : ℚ) := by
  unfold pxAt
  rw [if_pos ⟨Int.natCast_nonneg y, Int.natCast_nonneg x⟩, Int.toNat_natCast,
    Int.toNat_natCast]

theorem bilinearSample_natCast (f : Frame) (y x : ℕ) :
    bilinearSample f ((x : ℕ) : ℚ) ((y : ℕ) : ℚ) = (((f.getD y []).getD x 0 : ℤ) : ℚ) := by
  simp only [bilinearSample, Int.floor_natCast]
  have hx : ((x : ℕ) : ℚ) - (((x : ℕ) : ℤ) : ℚ) = 0 := by push_cast; ring
  have hy : ((y : ℕ) : ℚ) - (((y : ℕ) : ℤ) : ℚ) = 0 := by push_cast; ring
  rw [hx, hy, pxAt_natCast]
  ring

/-- Warping by the zero translation is the identity on rectangular frames. -/
theorem warpFrame_zero {f : Frame} {h w : ℕ} (hf : FrameRect f h w) :
    warpFrame f 0 0 = f := by
  unfold warpFrame
  have hrow : ∀ y ∈ List.range f.length,
      (List.range (f.headD []).length).map
        (fun x => roundHalfUp (bilinearSample f (((x : ℕ) : ℚ) - 0) (((y : ℕ) : ℚ) - 0)))
        = f.getD y [] := by
    intro y hy
    rw [List.mem_range] at hy
    have hmem : f.getD y [] ∈ f := by
      rw [List.getD_eq_getElem f [] hy]
      exact List.getElem_mem hy
    have hhead : (f.headD []).length = (f.getD y []).length := by
      cases f with
      | nil => simp at hy
      | cons r0 f' =>
        have h1 : r0.length = w := hf.2 r0 (List.mem_cons_self r0 f')
        have h2 : ((r0 :: f').getD y ([] : List ℤ)).length = w := hf.2 _ hmem
        simpa [h1] using h2.symm
    rw [hhead]
    have hcell : ∀ x ∈ List.range (f.getD y []).length,
        roundHalfUp (bilinearSample f (((x : ℕ) : ℚ) - 0) (((y : ℕ) : ℚ) - 0))
          = (f.getD y []).getD x 0 := by
      intro x hx
      rw [sub_zero, sub_zero, bilinearSample_natCast, roundHalfUp_intCast]
    rw [List.map_congr_left hcell, map_getD_range]
  rw [List.map_congr_left hrow, map_getD_range]

/-! ## Median, mask and status lemmas -/

theorem insertLe_replicate (n : ℕ) (c : ℚ) :
    insertLe c (List.replicate n c) = List.replicate (n + 1) c := by
  cases n with
  | zero => rfl
  | succ m =>
    simp only [List.replicate, insertLe, if_pos (le_refl c)]

theorem sortQ_replicate (n : ℕ) (c : ℚ) :
    sortQ (List.replicate n c) = List.replicate n c := by
  induction n with
  | zero => rfl
  | succ m ih =>
    simp only [List.replicate, sortQ]
    rw [show (List.replicate m c : List ℚ) = List.replicate m c from rfl] at ih
    rw [ih, insertLe_replicate]
    rfl

theorem getD_replicate_of_lt {n i : ℕ} (hi : i < n) (c d : ℚ) :
    (List.replicate n c).getD i d = c := by
  induction n generalizing i with
  | zero => omega
  | succ m ih =>
    cases i with
    | zero => rfl
    | succ j =>
      simp only [List.replicate, List.getD]
      exact ih (by omega)

theorem npMedian_replicate_zero (n : ℕ) : npMedian (List.replicate n (0 : ℚ)) = 0 := by
  simp only [npMedian]
  rw [sortQ_replicate, List.length_replicate]
  rcases Nat.eq_zero_or_pos n with rfl | hn
  · rfl
  · rw [if_neg (by omega)]
    split
    · exact getD_replicate_of_lt (by omega) 0 0
    · rw [getD_replicate_of_lt (by omega) 0 0, getD_replicate_of_lt (by omega) 0 0]
      norm_num

theorem maskSelect_replicate_true {α : Type} (p : List α) :
    maskSelect p (List.replicate p.length true) = p := by
  induction p with
  | nil => rfl
  | cons a p ih =>
    simp only [List.length_cons, List.replicate, maskSelect, List.zip_cons_cons,
      List.filterMap_cons, if_pos] at ih ⊢
    simpa using ih

theorem countTrue_replicate (n : ℕ) : countTrue (List.replicate n true) = n := by
  unfold countTrue
  simp

theorem zipWith_sub_self (p : List (ℚ × ℚ)) :
    List.zipWith (fun a b => (a.1 - b.1, a.2 - b.2)) p p
      = List.map (fun _ => ((0 : ℚ), (0 : ℚ))) p := by
  induction p with
  | nil => rfl
  | cons a p ih =>
    simp only [List.zipWith_cons_cons, List.map_cons, sub_self]
    rw [ih]

theorem npClip_zero : npClip 0 (-20) 20 = 0 := by
  unfold npClip
  norm_num

/-! ## Structural lemmas about the optical-flow loop -/

/-- On insufficient evidence (`p1 is None`, or fewer than 10 tracked points),
the loop body passes the frame through unwarped and leaves the whole state —
reference frame, feature set and cumulative shifts — unchanged. -/
theorem flowStep_insufficient {O : FlowOracle} {s : FlowState} {cur : Frame}
    (h : (flowStep O s cur).applied = none) :
    flowStep O s cur = { outFrame := cur, applied := none, state := s } := by
  simp only [flowStep] at h ⊢
  cases hc : O.calcOpticalFlowPyrLK s.refGray cur s.p0 with
  | none => simp only [hc]
  | some pr =>
    obtain ⟨p1, stat⟩ := pr
    simp only [hc] at h ⊢
    by_cases hcount : 10 ≤ countTrue stat
    · rw [if_pos hcount] at h
      simp at h
    · rw [if_neg hcount]

/-- The per-step increment of the cumulative shift is clamped to ±20 pixels
on each axis, in every case. -/
theorem flowStep_increment_bound (O : FlowOracle) (s : FlowState) (cur : Frame) :
    |(flowStep O s cur).state.cumX - s.cumX| ≤ 20 ∧
      |(flowStep O s cur).state.cumY - s.cumY| ≤ 20 := by
  simp only [flowStep]
  cases hc : O.calcOpticalFlowPyrLK s.refGray cur s.p0 with
  | none =>
    simp only [hc]
    simp
  | some pr =>
    obtain ⟨p1, stat⟩ := pr
    simp only [hc]
    by_cases hcount : 10 ≤ countTrue stat
    · rw [if_pos hcount]
      simp only [add_sub_cancel_left]
      exact ⟨abs_npClip_le _, abs_npClip_le _⟩
    · rw [if_neg hcount]
      simp

/-- In the sufficient-evidence branch, the translation passed to
`cv2.warpAffine` is the negated updated cumulative shift, and the updated
cumulative shift is the old one plus the clamped median displacement. -/
theorem flowStep_sufficient_applied {O : FlowOracle} {s : FlowState} {cur : Frame}
    {p1 : List (ℚ × ℚ)} {stat : List Bool}
    (hc : O.calcOpticalFlowPyrLK s.refGray cur s.p0 = some (p1, stat))
    (hcount : 10 ≤ countTrue stat) :
    (flowStep O s cur).state.cumX = s.cumX +
        npClip (npMedian ((List.zipWith (fun a b => (a.1 - b.1, a.2 - b.2))
          (maskSelect p1 stat) (maskSelect s.p0 stat)).map Prod.fst)) (-20) 20 ∧
      (flowStep O s cur).state.cumY = s.cumY +
        npClip (npMedian ((List.zipWith (fun a b => (a.1 - b.1, a.2 - b.2))
          (maskSelect p1 stat) (maskSelect s.p0 stat)).map Prod.snd)) (-20) 20 ∧
      (flowStep O s cur).applied =
        some (-(flowStep O s cur).state.cumX, -(flowStep O s cur).state.cumY) ∧
      (flowStep O s cur).outFrame =
        warpFrame cur (-(flowStep O s cur).state.cumX) (-(flowStep O s cur).state.cumY) := by
  simp only [flowStep, hc]
  rw [if_pos hcount]
  exact ⟨rfl, rfl, rfl, rfl⟩

/-- A loop body step on a frame identical to the current reference, with the
tracker reporting perfect zero-displacement tracks and zero cumulative shift:
the frame passes through bit-identically and the cumulative shift stays 0. -/
theorem flowStep_self {O : FlowOracle} {s : FlowState} {h w : ℕ}
    (hrect : FrameRect s.refGray h w) (hx : s.cumX = 0) (hy : s.cumY = 0)
    (hO : O.calcOpticalFlowPyrLK s.refGray s.refGray s.p0 =
      some (s.p0, List.replicate s.p0.length true)) :
    (flowStep O s s.refGray).outFrame = s.refGray ∧
      (flowStep O s s.refGray).state.refGray = s.refGray ∧
      (flowStep O s s.refGray).state.cumX = 0 ∧
      (flowStep O s s.refGray).state.cumY = 0 := by
  simp only [flowStep, hO]
  by_cases hcount : 10 ≤ countTrue (List.replicate s.p0.length true)
  · rw [if_pos hcount]
    have hdisp : List.zipWith (fun a b => (a.1 - b.1, a.2 - b.2))
        (maskSelect s.p0 (List.replicate s.p0.length true))
        (maskSelect s.p0 (List.replicate s.p0.length true))
        = List.map (fun _ => ((0 : ℚ), (0 : ℚ))) s.p0 := by
      rw [maskSelect_replicate_true, zipWith_sub_self]
    have hfst : (List.map (fun _ => ((0 : ℚ), (0 : ℚ))) s.p0).map Prod.fst
        = List.replicate s.p0.length (0 : ℚ) := by
      rw [List.map_map]
      exact List.map_const' s.p0 0
    have hsnd : (List.map (fun _ => ((0 : ℚ), (0 : ℚ))) s.p0).map Prod.snd
        = List.replicate s.p0.length (0 : ℚ) := by
      rw [List.map_map]
      exact List.map_const' s.p0 0
    simp only [hdisp, hfst, hsnd, npMedian_replicate_zero, npClip_zero, hx, hy,
      add_zero, neg_zero]
    refine ⟨warpFrame_zero hrect, ?_, ?_, ?_⟩ <;> trivial
  · rw [if_neg hcount]
    exact ⟨rfl, rfl, hx, hy⟩

theorem flowLoop_append (O : FlowOracle) (mn mx : ℤ) (u8 : Vol)
    (l1 l2 : List ℕ) (acc : Vol × List (Option (ℚ × ℚ)) × FlowState) :
    flowLoop O mn mx u8 (l1 ++ l2) acc
      = flowLoop O mn mx u8 l2 (flowLoop O mn mx u8 l1 acc) := by
  induction l1 generalizing acc with
  | nil => rfl
  | cons i l1 ih =>
    obtain ⟨vol, tr, s⟩ := acc
    rw [List.cons_append]
    simp only [flowLoop]
    exact ih _

theorem flowLoop_length (O : FlowOracle) (mn mx : ℤ) (u8 : Vol) (l : List ℕ)
    (acc : Vol × List (Option (ℚ × ℚ)) × FlowState) :
    (flowLoop O mn mx u8 l acc).1.length = acc.1.length := by
  induction l generalizing acc with
  | nil => rfl
  | cons i l ih =>
    obtain ⟨vol, tr, s⟩ := acc
    simp only [flowLoop]
    rw [ih]
    exact List.length_set vol i _

theorem flowLoop_range_state (O : FlowOracle) (mn mx : ℤ) (u8 : Vol) (n : ℕ)
    (vol : Vol) (tr : List (Option (ℚ × ℚ))) (init : FlowState) :
    (flowLoop O mn mx u8 (List.range n) (vol, tr, init)).2.2
      = flowSteps O u8 init n := by
  induction n generalizing vol tr with
  | zero => rfl
  | succ m ih =>
    rw [List.range_succ, flowLoop_append]
    rcases hA : flowLoop O mn mx u8 (List.range m) (vol, tr, init) with ⟨v2, t2, s2⟩
    have hs2 : s2 = flowSteps O u8 init m := by
      have := ih vol tr
      rw [hA] at this
      exact this
    simp only [flowLoop, hs2]
    rfl

theorem flowLoop_range_get (O : FlowOracle) (mn mx : ℤ) (u8 : Vol) (n : ℕ)
    (vol : Vol) (tr : List (Option (ℚ × ℚ))) (init : FlowState)
    {i : ℕ} (hi : i < n) (hlen : i < vol.length) :
    (flowLoop O mn mx u8 (List.range n) (vol, tr, init)).1[i]?
      = some (backFrame mn mx
          (flowStep O (flowSteps O u8 init i) (u8.getD i [])).outFrame) := by
  induction n generalizing vol tr with
  | zero => omega
  | succ m ih =>
    rw [List.range_succ, flowLoop_append]
    rcases hA : flowLoop O mn mx u8 (List.range m) (vol, tr, init) with ⟨v2, t2, s2⟩
    have hs2 : s2 = flowSteps O u8 init m := by
      have := flowLoop_range_state O mn mx u8 m vol tr init
      rw [hA] at this
      exact this
    have hv2len : v2.length = vol.length := by
      have := flowLoop_length O mn mx u8 (List.range m) (vol, tr, init)
      rw [hA] at this
      exact this
    simp only [flowLoop]
    rcases Nat.lt_or_ge i m with him | him
    · rw [List.getElem?_set_ne (by omega)]
      have := ih vol tr him hlen
      rw [hA] at this
      exact this
    · have hieq : i = m := by omega
      subst hieq
      rw [hs2, List.getElem?_set_self (by omega)]

/-! ## Shape and dtype-range preservation through the loop -/

theorem flowStep_outFrame_cases (O : FlowOracle) (s : FlowState) (cur : Frame) :
    (flowStep O s cur).outFrame = cur ∨
      ∃ a b, (flowStep O s cur).outFrame = warpFrame cur a b := by
  cases hc : O.calcOpticalFlowPyrLK s.refGray cur s.p0 with
  | none =>
    left
    simp only [flowStep, hc]
  | some pr =>
    obtain ⟨p1, stat⟩ := pr
    by_cases hcount : 10 ≤ countTrue stat
    · right
      exact ⟨_, _, by simp only [flowStep, hc]; rw [if_pos hcount]⟩
    · left
      simp only [flowStep, hc]
      rw [if_neg hcount]

theorem backFrame_rect {mn mx : ℤ} {f : Frame} {h w : ℕ} (hf : FrameRect f h w) :
    FrameRect (backFrame mn mx f) h w := by
  constructor
  · rw [backFrame, List.length_map, hf.1]
  · intro r hr
    rw [backFrame, List.mem_map] at hr
    obtain ⟨row, hrow, rfl⟩ := hr
    rw [List.length_map]
    exact hf.2 row hrow

theorem backFrame_bound {mn mx lo hi : ℤ} (hle : mn ≤ mx) (hlo : lo ≤ mn)
    (hhi : mx ≤ hi) (hlo0 : lo ≤ 0) (hhi0 : 0 ≤ hi) {f : Frame}
    (hf : mn < mx → FrameBound f 0 255) :
    FrameBound (backFrame mn mx f) lo hi := by
  intro r hr x hx
  rw [backFrame, List.mem_map] at hr
  obtain ⟨row, hrow, rfl⟩ := hr
  rw [List.mem_map] at hx
  obtain ⟨u, hu, rfl⟩ := hx
  rcases eq_or_lt_of_le hle with heq | hlt
  · rw [← heq, fromU8_degenerate]
    exact ⟨hlo, le_trans (le_of_eq heq) hhi⟩
  · have hub := hf hlt row hrow u hu
    exact fromU8_range_bound (le_of_lt hlt) hub.1 hub.2 hlo hhi hlo0 hhi0

theorem flowLoop_preserves (O : FlowOracle) {mn mx lo hi : ℤ} {t h w : ℕ}
    (u8 : Vol) (hle : mn ≤ mx) (hlo : lo ≤ mn) (hhi : mx ≤ hi)
    (hlo0 : lo ≤ 0) (hhi0 : 0 ≤ hi) (l : List ℕ)
    (hcur : ∀ i ∈ l, FrameRect (u8.getD i []) h w)
    (hcb : mn < mx → ∀ i ∈ l, FrameBound (u8.getD i []) 0 255) :
    ∀ acc : Vol × List (Option (ℚ × ℚ)) × FlowState,
      VolRect acc.1 t h w → VolBound acc.1 lo hi →
      VolRect (flowLoop O mn mx u8 l acc).1 t h w ∧
        VolBound (flowLoop O mn mx u8 l acc).1 lo hi := by
  induction l with
  | nil => exact fun acc hr hb => ⟨hr, hb⟩
  | cons i l ih =>
    intro acc hr hb
    obtain ⟨vol, tr, s⟩ := acc
    simp only [flowLoop]
    set cur := u8.getD i [] with hcurdef
    have hcr : FrameRect cur h w := hcur i (List.mem_cons_self i l)
    have hfr : FrameRect (flowStep O s cur).outFrame h w := by
      rcases flowStep_outFrame_cases O s cur with hcase | ⟨a, b, hcase⟩
      · rw [hcase]; exact hcr
      · rw [hcase]; exact warpFrame_rect hcr a b
    have hfb : mn < mx → FrameBound (flowStep O s cur).outFrame 0 255 := by
      intro hlt
      have hcbi : FrameBound cur 0 255 := hcb hlt i (List.mem_cons_self i l)
      rcases flowStep_outFrame_cases O s cur with hcase | ⟨a, b, hcase⟩
      · rw [hcase]; exact hcbi
      · rw [hcase]; exact warpFrame_bound hcbi (by norm_num) (by norm_num) a b
    have hback_rect : FrameRect (backFrame mn mx (flowStep O s cur).outFrame) h w :=
      backFrame_rect hfr
    have hback_bound : FrameBound (backFrame mn mx (flowStep O s cur).outFrame) lo hi :=
      backFrame_bound hle hlo hhi hlo0 hhi0 hfb
    apply ih (fun j hj => hcur j (List.mem_cons_of_mem i hj))
      (fun hlt j hj => hcb hlt j (List.mem_cons_of_mem i hj))
    · constructor
      · rw [List.length_set]
        exact hr.1
      · intro g hg
        rcases List.mem_or_eq_of_mem_set hg with hg2 | rfl
        · exact hr.2 g hg2
        · exact hback_rect
    · intro g hg
      rcases List.mem_or_eq_of_mem_set hg with hg2 | rfl
      · exact hb g hg2
      · exact hback_bound

theorem getD_normVol (nc mn mx : ℤ) (v : Vol) (i : ℕ) :
    (normVol nc mn mx v).getD i [] = normFrame nc mn mx (v.getD i []) := by
  induction v generalizing i with
  | nil =>
    cases i <;> rfl
  | cons f v ih =>
    cases i with
    | zero => rfl
    | succ j => exact ih j

theorem normFrame_rect {nc mn mx : ℤ} {f : Frame} {h w : ℕ} (hf : FrameRect f h w) :
    FrameRect (normFrame nc mn mx f) h w := by
  constructor
  · rw [normFrame, List.length_map, hf.1]
  · intro r hr
    rw [normFrame, List.mem_map] at hr
    obtain ⟨row, hrow, rfl⟩ := hr
    rw [List.length_map]
    exact hf.2 row hrow

theorem normFrame_bound {nc mn mx : ℤ} (hlt : mn < mx) {f : Frame}
    (hf : ∀ r ∈ f, ∀ x ∈ r, mn ≤ x ∧ x ≤ mx) :
    FrameBound (normFrame nc mn mx f) 0 255 := by
  intro r hr x hx
  rw [normFrame, List.mem_map] at hr
  obtain ⟨row, hrow, rfl⟩ := hr
  rw [List.mem_map] at hx
  obtain ⟨y, hy, rfl⟩ := hx
  exact toU8_bound hlt (hf row hrow y hy).1 (hf row hrow y hy).2

/-! ## Characterisation of the RANSAC post-loop block -/

/-- When the leftover `matches` holds at least 3 matches and the RANSAC fit
returns a matrix, the post-loop block leaves the output volume untouched
(the warped frame is discarded: the write-back lines sit under the `else`),
and the translation handed to `cv2.warpAffine` is the clamped translation
column of the matrix, used directly — not negated, not accumulated. -/
theorem ransacPost_fit {δ : Type} (O : OrbOracle δ) (mn mx : ℤ)
    (refKp : List (ℚ × ℚ)) (s : RLoopState δ) (stab : Vol) (n : ℕ)
    {ms : List DMatch} {M : Mat23} (hm : s.matchesVar = some ms)
    (hlen : 3 ≤ ms.length)
    (hM : O.estimateAffinePartial2D
        (ms.map (fun m => s.currKp.getD m.trainIdx (0, 0)))
        (ms.map (fun m => refKp.getD m.queryIdx (0, 0))) = some M) :
    ransacPost O mn mx refKp s stab n
      = .ok (stab, some (npClip M.m02 (-20) 20, npClip M.m12 (-20) 20)) := by
  simp only [ransacPost, hm, hM]
  rw [if_pos hlen]

/-- When the leftover `matches` has fewer than 3 entries, the post-loop block
writes back only the round-tripped final frame, at time index `n - 1`, with
no warp. -/
theorem ransacPost_fewMatches {δ : Type} (O : OrbOracle δ) (mn mx : ℤ)
    (refKp : List (ℚ × ℚ)) (s : RLoopState δ) (stab : Vol) (n : ℕ)
    {ms : List DMatch} (hm : s.matchesVar = some ms) (hlen : ms.length < 3) :
    ransacPost O mn mx refKp s stab n
      = .ok (stab.set (n - 1) (backFrame mn mx (s.currFrame.getD [])), none) := by
  simp only [ransacPost, hm]
  rw [if_neg (by omega)]

/-- Whenever the post-loop block warps at all, the translation it applies is
clamped to ±20 on each axis. -/
theorem ransacPost_applied_clamped {δ : Type} {O : OrbOracle δ} {mn mx : ℤ}
    {refKp : List (ℚ × ℚ)} {s : RLoopState δ} {stab : Vol} {n : ℕ}
    {v : Vol} {sx sy : ℚ}
    (h : ransacPost O mn mx refKp s stab n = .ok (v, some (sx, sy))) :
    |sx| ≤ 20 ∧ |sy| ≤ 20 := by
  unfold ransacPost at h
  cases hm : s.matchesVar with
  | none =>
    simp only [hm] at h
    exact Except.noConfusion h
  | some ms =>
    simp only [hm] at h
    by_cases hlen : 3 ≤ ms.length
    · rw [if_pos hlen] at h
      cases hM : O.estimateAffinePartial2D
          (ms.map (fun m => s.currKp.getD m.trainIdx (0, 0)))
          (ms.map (fun m => refKp.getD m.queryIdx (0, 0))) with
      | none =>
        rw [hM] at h
        simp at h
      | some M =>
        rw [hM] at h
        simp only [Except.ok.injEq, Prod.mk.injEq, Option.some.injEq] at h
        obtain ⟨-, hx, hy⟩ := h
        rw [← hx, ← hy]
        exact ⟨abs_npClip_le _, abs_npClip_le _⟩
    · rw [if_neg hlen] at h
      simp at h

/-! ## Run-level helper lemmas -/

theorem getD_mem_of_lt {α : Type} {l : List α} {i : ℕ} (hi : i < l.length) (d : α) :
    l.getD i d ∈ l := by
  rw [List.getD_eq_getElem l d hi]
  exact List.getElem_mem hi

theorem stabilize_axes_none (O : FlowOracle) (nc : ℤ) (data : Vol)
    (hne : volElems data ≠ []) :
    stabilize O nc data none = .ok (flowRunVol O nc data) := by
  simp only [stabilize]
  rw [if_neg hne]

theorem stabilize_axesTYX (O : FlowOracle) (nc : ℤ) (data : Vol)
    (hne : volElems data ≠ []) :
    stabilize O nc data (some axesTYX) = .ok (flowRunVol O nc data) := by
  simp only [stabilize, axesTYX]
  rw [show (['T', 'Y', 'X'].findIdx? (fun c => c == 'T')) = some 0 from rfl]
  rw [if_neg hne]

theorem flowRunVol_def (O : FlowOracle) (nc : ℤ) (data : Vol) :
    flowRunVol O nc data
      = (flowLoop O (volMin data) (volMax data) (flowU8 nc data)
          (List.range data.length) (data, [], flowInit O nc data)).1 := rfl

theorem flowRunVol_length (O : FlowOracle) (nc : ℤ) (data : Vol) :
    (flowRunVol O nc data).length = data.length := by
  rw [flowRunVol_def]
  exact flowLoop_length O (volMin data) (volMax data) (flowU8 nc data) _ _

theorem flowRunVol_get (O : FlowOracle) (nc : ℤ) (data : Vol) {i : ℕ}
    (hi : i < data.length) :
    (flowRunVol O nc data)[i]?
      = some (backFrame (volMin data) (volMax data)
          (flowStep O (flowSteps O (flowU8 nc data) (flowInit O nc data) i)
            ((flowU8 nc data).getD i [])).outFrame) := by
  rw [flowRunVol_def]
  exact flowLoop_range_get O (volMin data) (volMax data) (flowU8 nc data)
    data.length data [] (flowInit O nc data) hi hi

theorem flowLoop_trace_length (O : FlowOracle) (mn mx : ℤ) (u8 : Vol)
    (l : List ℕ) (acc : Vol × List (Option (ℚ × ℚ)) × FlowState) :
    (flowLoop O mn mx u8 l acc).2.1.length = acc.2.1.length + l.length := by
  induction l generalizing acc with
  | nil => rfl
  | cons i l ih =>
    obtain ⟨vol, tr, s⟩ := acc
    simp only [flowLoop]
    rw [ih]
    simp
    omega

theorem flowRunTrace_length (O : FlowOracle) (nc : ℤ) (data : Vol) :
    (flowRunTrace O nc data).length = data.length := by
  have h := flowLoop_trace_length O (volMin data) (volMax data) (flowU8 nc data)
    (List.range data.length) (data, [], flowInit O nc data)
  simpa using h

theorem backFrame_normFrame (nc mn mx : ℤ) (f : Frame) :
    backFrame mn mx (normFrame nc mn mx f) = roundTripFrame nc mn mx f := by
  unfold backFrame normFrame roundTripFrame
  rw [List.map_map]
  apply List.map_congr_left
  intro row _
  rw [Function.comp_apply, List.map_map]
  rfl

theorem getD_eq_headD_of_const {data : Vol} (hconst : ∀ f ∈ data, f = data.headD [])
    {i : ℕ} (hi : i < data.length) : data.getD i [] = data.headD [] :=
  hconst _ (getD_mem_of_lt hi [])

theorem getD_zero_eq_headD (data : Vol) : data.getD 0 [] = data.headD [] := by
  cases data <;> rfl

theorem headD_mem_of_ne_nil {data : Vol} (h : 0 < data.length) :
    data.headD [] ∈ data := by
  cases data with
  | nil => simp at h
  | cons f v => exact List.mem_cons_self f v

/-- Invariant of a zero-motion run on a constant stack: the reference stays
the normalized first frame and the cumulative shift stays (0, 0) at every
step. -/
theorem flowSteps_const (O : FlowOracle) (nc : ℤ) (data : Vol) {t h w : ℕ}
    (hrect : VolRect data t h w)
    (hconst : ∀ f ∈ data, f = data.headD [])
    (hO : ∀ p, O.calcOpticalFlowPyrLK ((flowU8 nc data).getD 0 [])
        ((flowU8 nc data).getD 0 []) p = some (p, List.replicate p.length true)) :
    ∀ i, i ≤ data.length →
      (flowSteps O (flowU8 nc data) (flowInit O nc data) i).refGray
          = (flowU8 nc data).getD 0 [] ∧
        (flowSteps O (flowU8 nc data) (flowInit O nc data) i).cumX = 0 ∧
        (flowSteps O (flowU8 nc data) (flowInit O nc data) i).cumY = 0 := by
  intro i
  induction i with
  | zero => exact fun _ => ⟨rfl, rfl, rfl⟩
  | succ j ih =>
    intro hj
    have hjlt : j < data.length := by omega
    obtain ⟨href, hcx, hcy⟩ := ih (by omega)
    set s := flowSteps O (flowU8 nc data) (flowInit O nc data) j with hs
    have hlen0 : 0 < data.length := by omega
    have hcur : (flowU8 nc data).getD j [] = (flowU8 nc data).getD 0 [] := by
      rw [flowU8, getD_normVol, getD_normVol, getD_zero_eq_headD,
        getD_eq_headD_of_const hconst hjlt]
    have hrectF : FrameRect s.refGray h w := by
      rw [href, flowU8, getD_normVol, getD_zero_eq_headD]
      exact normFrame_rect (hrect.2 _ (headD_mem_of_ne_nil hlen0))
    have hOs : O.calcOpticalFlowPyrLK s.refGray s.refGray s.p0
        = some (s.p0, List.replicate s.p0.length true) := by
      rw [href]
      exact hO s.p0
    have hself := flowStep_self hrectF hcx hcy hOs
    have hstep : flowSteps O (flowU8 nc data) (flowInit O nc data) (j + 1)
        = (flowStep O s s.refGray).state := by
      show (flowStep O s ((flowU8 nc data).getD j [])).state = _
      rw [hcur, ← href]
    rw [hstep]
    refine ⟨?_, hself.2.2.1, hself.2.2.2⟩
    rw [hself.2.1]
    exact href

/-- A zero-motion run on a constant stack maps every frame through the uint8
round trip (and nothing else). -/
theorem flowRun_const (O : FlowOracle) (nc : ℤ) (data : Vol) {t h w : ℕ}
    (hrect : VolRect data t h w)
    (hconst : ∀ f ∈ data, f = data.headD [])
    (hO : ∀ p, O.calcOpticalFlowPyrLK ((flowU8 nc data).getD 0 [])
        ((flowU8 nc data).getD 0 []) p = some (p, List.replicate p.length true)) :
    flowRunVol O nc data
      = data.map (roundTripFrame nc (volMin data) (volMax data)) := by
  apply List.ext_getElem?
  intro i
  by_cases hi : i < data.length
  · obtain ⟨href, hcx, hcy⟩ := flowSteps_const O nc data hrect hconst hO i (le_of_lt hi)
    set s := flowSteps O (flowU8 nc data) (flowInit O nc data) i with hs
    have hlen0 : 0 < data.length := by omega
    have hcur : (flowU8 nc data).getD i [] = (flowU8 nc data).getD 0 [] := by
      rw [flowU8, getD_normVol, getD_normVol, getD_zero_eq_headD,
        getD_eq_headD_of_const hconst hi]
    have hrectF : FrameRect s.refGray h w := by
      rw [href, flowU8, getD_normVol, getD_zero_eq_headD]
      exact normFrame_rect (hrect.2 _ (headD_mem_of_ne_nil hlen0))
    have hOs : O.calcOpticalFlowPyrLK s.refGray s.refGray s.p0
        = some (s.p0, List.replicate s.p0.length true) := by
      rw [href]
      exact hO s.p0
    have hself := flowStep_self hrectF hcx hcy hOs
    rw [flowRunVol_get O nc data hi]
    have hout : (flowStep O s ((flowU8 nc data).getD i [])).outFrame
        = (flowU8 nc data).getD 0 [] := by
      rw [hcur, ← href]
      exact hself.1
    rw [hout]
    have hback : backFrame (volMin data) (volMax data) ((flowU8 nc data).getD 0 [])
        = roundTripFrame nc (volMin data) (volMax data) (data.getD i []) := by
      rw [flowU8, getD_normVol, backFrame_normFrame, getD_zero_eq_headD,
        ← getD_eq_headD_of_const hconst hi]
    rw [hback]
    rw [List.getElem?_map, List.getElem?_eq_getElem hi]
    rw [List.getD_eq_getElem data [] hi]
    rfl
  · rw [List.getElem?_eq_none (by rw [flowRunVol_length]; omega),
      List.getElem?_eq_none (by rw [List.length_map]; omega)]

/-- Frame 0 is processed by the loop (it is compared against itself); with a
zero-displacement track it is written back as its uint8 round trip. -/
theorem flowRun_frame0 (O : FlowOracle) (nc : ℤ) (data : Vol) {t h w : ℕ}
    (hrect : VolRect data t h w) (hlen : 0 < data.length)
    (hO0 : O.calcOpticalFlowPyrLK ((flowU8 nc data).getD 0 [])
        ((flowU8 nc data).getD 0 [])
        (O.goodFeaturesToTrack ((flowU8 nc data).getD 0 []))
      = some (O.goodFeaturesToTrack ((flowU8 nc data).getD 0 []),
          List.replicate (O.goodFeaturesToTrack ((flowU8 nc data).getD 0 [])).length true)) :
    (flowRunVol O nc data)[0]?
      = some (roundTripFrame nc (volMin data) (volMax data) (data.getD 0 [])) := by
  have hrectF : FrameRect ((flowInit O nc data).refGray) h w := by
    show FrameRect ((flowU8 nc data).getD 0 []) h w
    rw [flowU8, getD_normVol, getD_zero_eq_headD]
    exact normFrame_rect (hrect.2 _ (headD_mem_of_ne_nil hlen))
  have hself := flowStep_self (O := O) (s := flowInit O nc data) hrectF rfl rfl hO0
  rw [flowRunVol_get O nc data hlen]
  have hout : (flowStep O (flowSteps O (flowU8 nc data) (flowInit O nc data) 0)
      ((flowU8 nc data).getD 0 [])).outFrame = (flowU8 nc data).getD 0 [] :=
    hself.1
  rw [hout, flowU8, getD_normVol, backFrame_normFrame, getD_zero_eq_headD]

/-! ## Claim theorems -/

/-- C1.  Claimed: for every time step of the feature-match (RANSAC) strategy
the per-frame estimation runs in full and the fitted translation is applied
as that frame's displacement.  The code instead runs the RANSAC block once,
after the loop, on the final iteration's leftover `matches`, and the only
write-back sits in the `matches < 3` branch.  Evaluation at a two-frame
volume where frame 0 has three matches against the reference but the final
frame has only one: no fit is attempted at all (the leftover `matches` has
length 1), no frame is warped, and the single write-back replaces frame 1 by
its uint8 round trip (5 becomes 4), while frame 0 — which the claim says
would be estimated and corrected — is untouched. -/
theorem c1_ransac_estimation_not_per_frame :
    ransacStabilize orbFirstFrameOnly 0 [[[0, 9]], [[0, 5]]] axesTYX
      = .ok ([[[0, 9]], [[0, 4]]], none) := by
  norm_num [ransacStabilize, ransacPost, rLoop, normVol, normFrame, backFrame,
    toU8, fromU8, fromU8Q, truncQ, volMin, volMax, volElems, frameElems,
    orbFirstFrameOnly, axesTYX, sortByDist, insertByDist, npClip,
    List.range_succ, List.findIdx?, Int.floor_eq_iff]
  all_goals exact fun hc => absurd hc (by decide)

/-- C5.  Claimed: when the volume's global min equals its global max, the
normalisation does not divide by zero and produces an all-zero uint8 output.
The code has no guard: it evaluates `(x - min) / (max - min)` with a zero
denominator — IEEE `0/0 = NaN` — and then casts NaN to uint8, which is
platform-undefined (modelled by the free parameter `nc`).  On the uniform
volume `[[[7,7]],[[7,7]]]` the min equals the max and every output pixel is
that undefined cast value, not a guarded zero. -/
theorem c5_zero_range_hits_nan (nc : ℤ) :
    volMin [[[7, 7]], [[7, 7]]] = volMax [[[7, 7]], [[7, 7]]] ∧
      normVol nc 7 7 [[[7, 7]], [[7, 7]]] = [[[nc, nc]], [[nc, nc]]] := by
  constructor
  · decide
  · simp [normVol, normFrame, toU8]

/-- Witness for C5 at the concrete platform value 5. -/
theorem c5_zero_range_hits_nan_witness :
    volMin [[[7, 7]], [[7, 7]]] = volMax [[[7, 7]], [[7, 7]]] ∧
      normVol 5 7 7 [[[7, 7]], [[7, 7]]] = [[[5, 5]], [[5, 5]]] :=
  c5_zero_range_hits_nan 5

/-- C9 counterexample.  Claimed: the uint8 round trip reconstructs every
value to within one quantization step `(max - min)/255`.  With
`min = 0, max = 1000` the step is `1000/255 ≈ 3.922`, yet the value 7 maps
to uint8 1 and back to 3: an error of 4, exceeding one step.  (The claim
holds only before the final cast to the original dtype.) -/
theorem c9_roundtrip_exceeds_one_step :
    fromU8 0 1000 (toU8 0 0 1000 7) = 3 ∧
      ((1000 : ℚ) - 0) / 255 < |(7 : ℚ) - (3 : ℚ)| := by
  constructor
  · norm_num [toU8, fromU8, fromU8Q, truncQ, Int.floor_eq_iff]
  · norm_num

/-- C6 counterexample.  Claimed: a stack whose every time step is a
bit-identical copy of frame 0 stabilizes to an output identical to the
input.  With a tracker returning perfect zero displacements on the constant
stack `[[[0,3,1000]],[[0,3,1000]]]`, every estimated displacement is (0,0)
and the warp is the identity, but the write-back path still routes each
frame through the uint8 round trip: pixel 3 maps to uint8 0 and back to 0,
so the output differs from the input. -/
theorem c6_zero_motion_not_bit_identical :
    flowRunVol estZero 0 [[[0, 3, 1000]], [[0, 3, 1000]]]
        = [[[0, 0, 1000]], [[0, 0, 1000]]] ∧
      ([[[0, 0, 1000]], [[0, 0, 1000]]] : Vol) ≠ [[[0, 3, 1000]], [[0, 3, 1000]]] := by
  constructor
  · norm_num [flowRunVol, flowRun, flowLoop, flowStep, normVol, normFrame, backFrame,
      toU8, fromU8, fromU8Q, truncQ, volMin, volMax, volElems, frameElems, estZero,
      countTrue, maskSelect, npMedian, npClip, sortQ, insertLe, warpFrame,
      bilinearSample, pxAt, roundHalfUp, List.range_succ, Int.floor_eq_iff,
      List.zip, List.zipWith, List.replicate, List.getD_cons_zero, List.getD_cons_succ]
    all_goals simp
    all_goals norm_num [Int.floor_eq_iff]
  · decide

/-- C7 counterexample.  Claimed: the frame at time index 0 appears in the
output unchanged, the loop covering only indices 1..N-1.  The loop is
`for i in range(num_frames)`, so frame 0 is processed too — estimated
against itself and written back through the uint8 round trip.  On the
single-frame volume `[[[0,3,1000]]]` with a perfect zero-displacement
tracker, output frame 0 is `[[0,0,1000]]`, not the input `[[0,3,1000]]`. -/
theorem c7_frame0_not_unchanged :
    flowRunVol estZero 0 [[[0, 3, 1000]]] = [[[0, 0, 1000]]] ∧
      ([[(0 : ℤ), 0, 1000]] : Frame) ≠ [[0, 3, 1000]] := by
  constructor
  · norm_num [flowRunVol, flowRun, flowLoop, flowStep, normVol, normFrame, backFrame,
      toU8, fromU8, fromU8Q, truncQ, volMin, volMax, volElems, frameElems, estZero,
      countTrue, maskSelect, npMedian, npClip, sortQ, insertLe, warpFrame,
      bilinearSample, pxAt, roundHalfUp, List.range_succ, Int.floor_eq_iff,
      List.zip, List.zipWith, List.replicate, List.getD_cons_zero, List.getD_cons_succ]
    all_goals simp
    all_goals norm_num [Int.floor_eq_iff]
  · decide

/-- C4 counterexample.  Claimed: a frame with insufficient tracking evidence
is emitted equal to the input frame.  With a tracker that never returns
points (`p1 is None` on every frame), frame 1 of `[[[0,1000]],[[0,3]]]` is
passed through unwarped but still round-tripped through uint8: its pixel 3
comes back as 0, so the output frame differs from the input frame. -/
theorem c4_insufficient_output_quantized :
    flowRunVol estInsufficient 0 [[[0, 1000]], [[0, 3]]] = [[[0, 1000]], [[0, 0]]] ∧
      ([[(0 : ℤ), 0]] : Frame) ≠ [[0, 3]] := by
  constructor
  · norm_num [flowRunVol, flowRun, flowLoop, flowStep, normVol, normFrame, backFrame,
      toU8, fromU8, fromU8Q, truncQ, volMin, volMax, volElems, frameElems,
      estInsufficient, List.range_succ, Int.floor_eq_iff,
      List.getD_cons_zero, List.getD_cons_succ]
    all_goals simp
    all_goals norm_num [Int.floor_eq_iff]
  · decide

/-- C3 counterexample.  Claimed: the per-axis shift magnitude actually
applied when warping a frame never exceeds 20 px.  The optical-flow warp
uses the *accumulated* shift: with per-step estimates of 15 px (each within
the clamp), frame 1 of a two-frame run is already warped with translation
-30, whose magnitude exceeds 20. -/
theorem c3_cumulative_shift_exceeds_clamp :
    flowRunTrace estFifteen 0 [[[0, 9]], [[0, 9]]]
        = [some (-15, 0), some (-30, 0)] ∧
      (20 : ℚ) < |(-30 : ℚ)| := by
  constructor
  · norm_num [flowRunTrace, flowRun, flowLoop, flowStep, normVol, normFrame, backFrame,
      toU8, fromU8, fromU8Q, truncQ, volMin, volMax, volElems, frameElems, estFifteen,
      countTrue, maskSelect, npMedian, npClip, sortQ, insertLe, warpFrame,
      bilinearSample, pxAt, roundHalfUp, List.range_succ, Int.floor_eq_iff,
      List.zip, List.zipWith, List.replicate, List.getD_cons_zero, List.getD_cons_succ]
    all_goals simp
    all_goals norm_num [Int.floor_eq_iff]
  · norm_num

/-- C8 counterexample.  Claimed: the feature-match strategy applies each
frame's clamped displacement directly as that frame's warp translation.
With an oracle giving three matches and an affine fit translating by (5,0)
on every frame, the run returns the input volume unchanged — the one warp
that does happen (post-loop, on the final frame) is discarded, and no frame
is ever written back with the (5,0) translation. -/
theorem c8_feature_match_no_per_frame_warp :
    ransacStabilize orbThreeMatches 0 [[[0, 9]], [[0, 9]]] axesTYX
      = .ok ([[[0, 9]], [[0, 9]]], some (5, 0)) := by
  norm_num [ransacStabilize, ransacPost, rLoop, normVol, normFrame, toU8, truncQ,
    volMin, volMax, volElems, frameElems, orbThreeMatches, axesTYX, sortByDist,
    insertByDist, npClip, List.range_succ, List.findIdx?, Int.floor_eq_iff]
  all_goals exact fun hc => absurd hc (by decide)

/-- C2.  For every valid time-first volume (an axis string with a Time
label, at least one element so `data.min()` is defined), the stabilized
output has exactly the input's shape, and every output value is
representable in the input's dtype range (the write-back casts to
`data.dtype`, and all written values stay inside `[lo, hi]` whenever the
input did and the dtype range contains 0). -/
theorem c2_shape_dtype_preserved (O : FlowOracle) (nc : ℤ) (data : Vol)
    {t h w : ℕ} {lo hi : ℤ}
    (hrect : VolRect data t h w) (hb : VolBound data lo hi)
    (hlo0 : lo ≤ 0) (hhi0 : 0 ≤ hi) (hne : volElems data ≠ []) :
    stabilize O nc data (some axesTYX) = .ok (flowRunVol O nc data) ∧
      VolRect (flowRunVol O nc data) t h w ∧
      VolBound (flowRunVol O nc data) lo hi := by
  have hbounds := volMin_bound hb hlo0 hhi0
  refine ⟨stabilize_axesTYX O nc data hne, ?_⟩
  have hcur : ∀ i ∈ List.range data.length,
      FrameRect ((flowU8 nc data).getD i []) h w := by
    intro i hi
    rw [List.mem_range] at hi
    rw [flowU8, getD_normVol]
    exact normFrame_rect (hrect.2 _ (getD_mem_of_lt hi []))
  have hcb : volMin data < volMax data → ∀ i ∈ List.range data.length,
      FrameBound ((flowU8 nc data).getD i []) 0 255 := by
    intro hlt i hi
    rw [List.mem_range] at hi
    rw [flowU8, getD_normVol]
    apply normFrame_bound hlt
    intro r hr x hx
    exact ⟨volMin_le_mem (mem_volElems (getD_mem_of_lt hi []) hr hx),
      mem_le_volMax (mem_volElems (getD_mem_of_lt hi []) hr hx)⟩
  have key := flowLoop_preserves O (flowU8 nc data) (volMin_le_volMax data)
    hbounds.1 hbounds.2 hlo0 hhi0 (List.range data.length) hcur hcb
    (data, [], flowInit O nc data) hrect hb
  rw [flowRunVol_def]
  exact key

/-- Witness for C2 on a concrete 1×1×2 uint16-range volume with a
no-evidence tracker. -/
theorem c2_shape_dtype_preserved_witness :
    stabilize estInsufficient 0 [[[0, 3]]] (some axesTYX)
        = .ok (flowRunVol estInsufficient 0 [[[0, 3]]]) ∧
      VolRect (flowRunVol estInsufficient 0 [[[0, 3]]]) 1 1 2 ∧
      VolBound (flowRunVol estInsufficient 0 [[[0, 3]]]) 0 1000 :=
  c2_shape_dtype_preserved estInsufficient 0 [[[0, 3]]]
    (by decide) (by decide) (by decide) (by decide) (by decide)

/-- C10.  Calling `stabilize` with `axes=None` does not fail with a
missing-time-axis error: `t_index` silently defaults to 0 (dimension 0 is
treated as time) and the run proceeds in full — it returns exactly what the
run with an explicit time-first axis string returns. -/
theorem c10_axes_none_defaults_to_dim0 (O : FlowOracle) (nc : ℤ) (data : Vol)
    (hne : volElems data ≠ []) :
    stabilize O nc data none = .ok (flowRunVol O nc data) ∧
      stabilize O nc data none = stabilize O nc data (some axesTYX) := by
  refine ⟨stabilize_axes_none O nc data hne, ?_⟩
  rw [stabilize_axes_none O nc data hne, stabilize_axesTYX O nc data hne]

/-- Witness for C10 on a concrete volume. -/
theorem c10_axes_none_defaults_to_dim0_witness :
    stabilize estZero 0 [[[0, 3]]] none = .ok (flowRunVol estZero 0 [[[0, 3]]]) ∧
      stabilize estZero 0 [[[0, 3]]] none = stabilize estZero 0 [[[0, 3]]] (some axesTYX) :=
  c10_axes_none_defaults_to_dim0 estZero 0 [[[0, 3]]] (by decide)

/-- C9 (amended).  For min < max and any in-range value, the uint8 round
trip reconstructs the value to within one quantization step
`(max - min)/255` *before* the final dtype cast (the error is in
`[0, step)`); including the trunc-toward-zero cast to the original dtype
the reconstruction error is strictly below one step plus one. -/
theorem c9_roundtrip_error_bound (nc mn mx x : ℤ) (hlt : mn < mx)
    (h1 : mn ≤ x) (h2 : x ≤ mx) :
    (0 ≤ (x : ℚ) - fromU8Q mn mx (toU8 nc mn mx x) ∧
        (x : ℚ) - fromU8Q mn mx (toU8 nc mn mx x) < ((mx : ℚ) - (mn : ℚ)) / 255) ∧
      |(x : ℚ) - (fromU8 mn mx (toU8 nc mn mx x) : ℚ)|
        < ((mx : ℚ) - (mn : ℚ)) / 255 + 1 :=
  ⟨roundTrip_pre_cast_bound hlt h1 h2, roundTrip_cast_bound hlt h1 h2⟩

/-- Witness for C9 at `min = 0, max = 1000, x = 7`. -/
theorem c9_roundtrip_error_bound_witness :
    (0 ≤ (7 : ℚ) - fromU8Q 0 1000 (toU8 0 0 1000 7) ∧
        (7 : ℚ) - fromU8Q 0 1000 (toU8 0 0 1000 7) < ((1000 : ℚ) - (0 : ℚ)) / 255) ∧
      |(7 : ℚ) - (fromU8 0 1000 (toU8 0 0 1000 7) : ℚ)|
        < ((1000 : ℚ) - (0 : ℚ)) / 255 + 1 :=
  c9_roundtrip_error_bound 0 0 1000 7 (by decide) (by decide) (by decide)

/-- C3 (amended).  What the 20 px clamp actually bounds: every *per-step*
increment of the optical-flow cumulative shift is at most 20 px per axis,
and the feature-match post-loop warp translation, whenever a warp happens at
all, is clamped to ±20 px per axis.  (The optical-flow warp itself uses the
accumulated sum of clamped steps, which can exceed 20 px across frames, as
the counterexample shows; a single oversized step — e.g. the 50 px test —
still contributes at most 20 px.) -/
theorem c3_per_step_clamp_bound :
    (∀ (O : FlowOracle) (s : FlowState) (cur : Frame),
        |(flowStep O s cur).state.cumX - s.cumX| ≤ 20 ∧
          |(flowStep O s cur).state.cumY - s.cumY| ≤ 20) ∧
      (∀ (δ : Type) (O : OrbOracle δ) (mn mx : ℤ) (refKp : List (ℚ × ℚ))
          (s : RLoopState δ) (stab v : Vol) (n : ℕ) (sx sy : ℚ),
        ransacPost O mn mx refKp s stab n = .ok (v, some (sx, sy)) →
          |sx| ≤ 20 ∧ |sy| ≤ 20) :=
  ⟨flowStep_increment_bound,
    fun _ _ _ _ _ _ _ _ _ _ _ h => ransacPost_applied_clamped h⟩

/-- Witness for C3: a trivial flow step, and a feature-match fit reporting a
50 px translation whose applied warp translation is clamped. -/
theorem c3_per_step_clamp_bound_witness :
    (|(flowStep estZero { refGray := [], p0 := [], cumX := 0, cumY := 0 } []).state.cumX
        - (0 : ℚ)| ≤ 20 ∧
      |(flowStep estZero { refGray := [], p0 := [], cumX := 0, cumY := 0 } []).state.cumY
        - (0 : ℚ)| ≤ 20) ∧
      (|npClip 50 (-20) 20| ≤ 20 ∧ |npClip 0 (-20) 20| ≤ 20) :=
  ⟨c3_per_step_clamp_bound.1 estZero { refGray := [], p0 := [], cumX := 0, cumY := 0 } [],
    c3_per_step_clamp_bound.2 Unit orbFifty 0 9 [(0, 0), (1, 0), (0, 1)]
      { matchesVar := some [⟨0, 0, 0⟩, ⟨1, 1, 0⟩, ⟨2, 2, 0⟩],
        currKp := [(0, 0), (1, 0), (0, 1)], currDes := some (),
        currFrame := some [[0, 255]] }
      [[[0, 9]]] [[[0, 9]]] 2 (npClip 50 (-20) 20) (npClip 0 (-20) 20)
      (ransacPost_fit orbFifty 0 9 [(0, 0), (1, 0), (0, 1)]
        { matchesVar := some [⟨0, 0, 0⟩, ⟨1, 1, 0⟩, ⟨2, 2, 0⟩],
          currKp := [(0, 0), (1, 0), (0, 1)], currDes := some (),
          currFrame := some [[0, 255]] }
        [[[0, 9]]] 2 rfl (by decide) rfl)⟩

/-- C4 (amended).  For every run and every frame on which the tracker
reports insufficient evidence, no exception is raised: the loop state —
reference frame, feature set and cumulative shift — is left unchanged, the
run continues through all frames (the output has one frame per input
frame), and the output frame for that time step is the input frame passed
through the uint8 normalisation round trip with no warp applied.  (The
original claim's "equals the input frame" holds only when that round trip
is lossless, as the counterexample shows.) -/
theorem c4_insufficient_graceful (O : FlowOracle) (nc : ℤ) (data : Vol) (i : ℕ)
    (hi : i < data.length)
    (hins : (flowStep O (flowSteps O (flowU8 nc data) (flowInit O nc data) i)
        ((flowU8 nc data).getD i [])).applied = none) :
    (flowStep O (flowSteps O (flowU8 nc data) (flowInit O nc data) i)
        ((flowU8 nc data).getD i [])).state
        = flowSteps O (flowU8 nc data) (flowInit O nc data) i ∧
      (flowRunVol O nc data)[i]?
        = some (roundTripFrame nc (volMin data) (volMax data) (data.getD i [])) ∧
      (flowRunVol O nc data).length = data.length := by
  have hstep := flowStep_insufficient hins
  refine ⟨by rw [hstep], ?_, flowRunVol_length O nc data⟩
  rw [flowRunVol_get O nc data hi, hstep]
  show some (backFrame _ _ ((flowU8 nc data).getD i [])) = _
  rw [flowU8, getD_normVol, backFrame_normFrame]

/-- Witness for C4 at frame 1 of a two-frame volume with a never-tracking
oracle: the state is untouched and the output frame is the quantized input
frame. -/
theorem c4_insufficient_graceful_witness :
    (flowStep estInsufficient
        (flowSteps estInsufficient (flowU8 0 [[[0, 1000]], [[0, 3]]])
          (flowInit estInsufficient 0 [[[0, 1000]], [[0, 3]]]) 1)
        ((flowU8 0 [[[0, 1000]], [[0, 3]]]).getD 1 [])).state
        = flowSteps estInsufficient (flowU8 0 [[[0, 1000]], [[0, 3]]])
            (flowInit estInsufficient 0 [[[0, 1000]], [[0, 3]]]) 1 ∧
      (flowRunVol estInsufficient 0 [[[0, 1000]], [[0, 3]]])[1]?
        = some (roundTripFrame 0 (volMin [[[0, 1000]], [[0, 3]]])
            (volMax [[[0, 1000]], [[0, 3]]]) [[0, 3]]) ∧
      (flowRunVol estInsufficient 0 [[[0, 1000]], [[0, 3]]]).length
        = ([[[0, 1000]], [[0, 3]]] : Vol).length :=
  c4_insufficient_graceful estInsufficient 0 [[[0, 1000]], [[0, 3]]] 1
    (by decide) rfl

/-- C6 (amended).  A stack whose every time step is a bit-identical copy of
frame 0, stabilized with a tracker that reports perfect zero-displacement
tracks on the (identical) reference and current frames: every estimated
displacement is (0,0) — the cumulative shift stays (0,0) at every step, so
the clamp is a no-op and the warp is the identity — and the output equals
the input mapped frame-by-frame through the uint8 normalisation round trip.
It is bit-identical to the input only when that round trip is lossless. -/
theorem c6_zero_motion_roundtrip (O : FlowOracle) (nc : ℤ) (data : Vol)
    {t h w : ℕ} (hrect : VolRect data t h w)
    (hconst : ∀ f ∈ data, f = data.headD [])
    (hO : ∀ p, O.calcOpticalFlowPyrLK ((flowU8 nc data).getD 0 [])
        ((flowU8 nc data).getD 0 []) p = some (p, List.replicate p.length true)) :
    flowRunVol O nc data
        = data.map (roundTripFrame nc (volMin data) (volMax data)) ∧
      ∀ i, i ≤ data.length →
        (flowSteps O (flowU8 nc data) (flowInit O nc data) i).cumX = 0 ∧
        (flowSteps O (flowU8 nc data) (flowInit O nc data) i).cumY = 0 :=
  ⟨flowRun_const O nc data hrect hconst hO,
    fun i hi => ⟨(flowSteps_const O nc data hrect hconst hO i hi).2.1,
      (flowSteps_const O nc data hrect hconst hO i hi).2.2⟩⟩

/-- Witness for C6 on the constant two-frame stack `[[[0,3,1000]]] × 2`. -/
theorem c6_zero_motion_roundtrip_witness :
    flowRunVol estZero 0 [[[0, 3, 1000]], [[0, 3, 1000]]]
        = ([[[0, 3, 1000]], [[0, 3, 1000]]] : Vol).map
            (roundTripFrame 0 (volMin [[[0, 3, 1000]], [[0, 3, 1000]]])
              (volMax [[[0, 3, 1000]], [[0, 3, 1000]]])) ∧
      (flowSteps estZero (flowU8 0 [[[0, 3, 1000]], [[0, 3, 1000]]])
          (flowInit estZero 0 [[[0, 3, 1000]], [[0, 3, 1000]]]) 2).cumX = 0 ∧
      (flowSteps estZero (flowU8 0 [[[0, 3, 1000]], [[0, 3, 1000]]])
          (flowInit estZero 0 [[[0, 3, 1000]], [[0, 3, 1000]]]) 2).cumY = 0 :=
  ⟨(c6_zero_motion_roundtrip estZero 0 [[[0, 3, 1000]], [[0, 3, 1000]]]
      (t := 2) (h := 1) (w := 3) (by decide) (by decide) (fun p => rfl)).1,
    (c6_zero_motion_roundtrip estZero 0 [[[0, 3, 1000]], [[0, 3, 1000]]]
      (t := 2) (h := 1) (w := 3) (by decide) (by decide) (fun p => rfl)).2 2 (by decide)⟩

/-- C7 (amended).  The per-time-step loop covers indices 0..N-1 — it
records one warp decision per input frame, frame 0 included — and frame 0,
compared against itself, is written back through the uint8 round trip
(when its self-track reports zero displacement), not copied through
bit-identically. -/
theorem c7_frame0_roundtrip (O : FlowOracle) (nc : ℤ) (data : Vol)
    {t h w : ℕ} (hrect : VolRect data t h w) (hlen : 0 < data.length)
    (hO0 : O.calcOpticalFlowPyrLK ((flowU8 nc data).getD 0 [])
        ((flowU8 nc data).getD 0 [])
        (O.goodFeaturesToTrack ((flowU8 nc data).getD 0 []))
      = some (O.goodFeaturesToTrack ((flowU8 nc data).getD 0 []),
          List.replicate (O.goodFeaturesToTrack ((flowU8 nc data).getD 0 [])).length true)) :
    (flowRunVol O nc data)[0]?
        = some (roundTripFrame nc (volMin data) (volMax data) (data.getD 0 [])) ∧
      (flowRunTrace O nc data).length = data.length :=
  ⟨flowRun_frame0 O nc data hrect hlen hO0, flowRunTrace_length O nc data⟩

/-- Witness for C7 on a single-frame volume. -/
theorem c7_frame0_roundtrip_witness :
    (flowRunVol estZero 0 [[[0, 3, 1000]]])[0]?
        = some (roundTripFrame 0 (volMin [[[0, 3, 1000]]])
            (volMax [[[0, 3, 1000]]]) [[0, 3, 1000]]) ∧
      (flowRunTrace estZero 0 [[[0, 3, 1000]]]).length
        = ([[[0, 3, 1000]]] : Vol).length :=
  c7_frame0_roundtrip estZero 0 [[[0, 3, 1000]]] (t := 1) (h := 1) (w := 3)
    (by decide) (by decide) rfl

/-- C8 (amended).  The two strategies do treat displacements asymmetrically,
but with a correction on the feature-match side: (a) the optical-flow
sufficient-evidence step adds the clamped per-axis median displacement into
the cumulative shift and warps the frame with the *negated* cumulative
shift as the translation; (b) the feature-match path's only warp — the
single post-loop fit — uses the clamped translation column of the affine
matrix *directly* (not negated, not accumulated), and its result is
discarded: the output volume is returned unchanged, so no frame is ever
warped per-frame by this strategy. -/
theorem c8_shift_application_asymmetry :
    (∀ (O : FlowOracle) (s : FlowState) (cur : Frame)
        (p1 : List (ℚ × ℚ)) (stat : List Bool),
      O.calcOpticalFlowPyrLK s.refGray cur s.p0 = some (p1, stat) →
      10 ≤ countTrue stat →
      (flowStep O s cur).state.cumX = s.cumX +
          npClip (npMedian ((List.zipWith (fun a b => (a.1 - b.1, a.2 - b.2))
            (maskSelect p1 stat) (maskSelect s.p0 stat)).map Prod.fst)) (-20) 20 ∧
        (flowStep O s cur).state.cumY = s.cumY +
          npClip (npMedian ((List.zipWith (fun a b => (a.1 - b.1, a.2 - b.2))
            (maskSelect p1 stat) (maskSelect s.p0 stat)).map Prod.snd)) (-20) 20 ∧
        (flowStep O s cur).applied =
          some (-(flowStep O s cur).state.cumX, -(flowStep O s cur).state.cumY) ∧
        (flowStep O s cur).outFrame =
          warpFrame cur (-(flowStep O s cur).state.cumX) (-(flowStep O s cur).state.cumY)) ∧
      (∀ (δ : Type) (O : OrbOracle δ) (mn mx : ℤ) (refKp : List (ℚ × ℚ))
          (s : RLoopState δ) (stab : Vol) (n : ℕ) (ms : List DMatch) (M : Mat23),
        s.matchesVar = some ms → 3 ≤ ms.length →
        O.estimateAffinePartial2D
            (ms.map (fun m => s.currKp.getD m.trainIdx (0, 0)))
            (ms.map (fun m => refKp.getD m.queryIdx (0, 0))) = some M →
        ransacPost O mn mx refKp s stab n
          = .ok (stab, some (npClip M.m02 (-20) 20, npClip M.m12 (-20) 20))) :=
  ⟨fun _ _ _ _ _ hc hcount => flowStep_sufficient_applied hc hcount,
    fun _ O mn mx refKp s stab n _ _ hm hlen hM =>
      ransacPost_fit O mn mx refKp s stab n hm hlen hM⟩

/-- Witness for C8: a zero-displacement sufficient step on the optical-flow
side, and a three-match (5,0)-translation fit on the feature-match side. -/
theorem c8_shift_application_asymmetry_witness :
    ((flowStep estZero ⟨[], List.replicate 10 (0, 0), 0, 0⟩ []).state.cumX
        = 0 + npClip (npMedian ((List.zipWith (fun a b => (a.1 - b.1, a.2 - b.2))
            (maskSelect (List.replicate 10 ((0 : ℚ), (0 : ℚ))) (List.replicate 10 true))
            (maskSelect (List.replicate 10 ((0 : ℚ), (0 : ℚ)))
              (List.replicate 10 true))).map Prod.fst)) (-20) 20 ∧
      (flowStep estZero ⟨[], List.replicate 10 (0, 0), 0, 0⟩ []).state.cumY
        = 0 + npClip (npMedian ((List.zipWith (fun a b => (a.1 - b.1, a.2 - b.2))
            (maskSelect (List.replicate 10 ((0 : ℚ), (0 : ℚ))) (List.replicate 10 true))
            (maskSelect (List.replicate 10 ((0 : ℚ), (0 : ℚ)))
              (List.replicate 10 true))).map Prod.snd)) (-20) 20 ∧
      (flowStep estZero ⟨[], List.replicate 10 (0, 0), 0, 0⟩ []).applied
        = some (-(flowStep estZero ⟨[], List.replicate 10 (0, 0), 0, 0⟩ []).state.cumX,
            -(flowStep estZero ⟨[], List.replicate 10 (0, 0), 0, 0⟩ []).state.cumY) ∧
      (flowStep estZero ⟨[], List.replicate 10 (0, 0), 0, 0⟩ []).outFrame
        = warpFrame []
            (-(flowStep estZero ⟨[], List.replicate 10 (0, 0), 0, 0⟩ []).state.cumX)
            (-(flowStep estZero ⟨[], List.replicate 10 (0, 0), 0, 0⟩ []).state.cumY)) ∧
      ransacPost orbThreeMatches 0 9 [(0, 0), (1, 0), (0, 1)]
          ⟨some [⟨0, 0, 0⟩, ⟨1, 1, 0⟩, ⟨2, 2, 0⟩], [(0, 0), (1, 0), (0, 1)],
            some (), some [[0, 255]]⟩
          [[[0, 9]]] 2
        = .ok ([[[0, 9]]], some (npClip 5 (-20) 20, npClip 0 (-20) 20)) :=
  ⟨c8_shift_application_asymmetry.1 estZero ⟨[], List.replicate 10 (0, 0), 0, 0⟩ []
      (List.replicate 10 ((0 : ℚ), (0 : ℚ))) (List.replicate 10 true) rfl (by decide),
    c8_shift_application_asymmetry.2 Unit orbThreeMatches 0 9 [(0, 0), (1, 0), (0, 1)]
      ⟨some [⟨0, 0, 0⟩, ⟨1, 1, 0⟩, ⟨2, 2, 0⟩], [(0, 0), (1, 0), (0, 1)],
        some (), some [[0, 255]]⟩
      [[[0, 9]]] 2 [⟨0, 0, 0⟩, ⟨1, 1, 0⟩, ⟨2, 2, 0⟩] ⟨1, 0, 5, 0, 1, 0⟩
      rfl (by decide) rfl⟩
